import Mathlib

/-!
Verification of the stack_alloc allocator against its specification.

The definitions below are a shallow embedding of the Rust sources:

* `BitmappedStack` and its operations come from `src/bitmapped_stack.rs`.
  Machine integers (`usize`/`u64`) are modelled as `Nat` with explicit
  `% 2 ^ 64` / complement-by-xor arithmetic at the places where the Rust
  code relies on 64-bit semantics (`wrapping_shl`, `!mask`,
  `leading_zeros`).
* `SizeCategory.choose` comes from `src/bucketed.rs`, and
  `SizeCategory.choose_fc` from `src/factory_chain.rs` (the two iterations
  of the same function differ textually in the `Large` arm; the match arms
  are tried in order, which the nested `if`s reproduce).
* The router (`Buckets`, `extend_*`, `alloc_*`, `dealloc`, `realloc`)
  comes from `src/bucketed.rs`, with the one diverging function of
  `src/factory_chain.rs` (`extend_metadata`) embedded separately.
* The sized-chain node (`Node`, `chainAlloc`, `chainDealloc`, ...) is
  modelled from the spec (§4.2): the iteration of `sized_allocator.rs`
  that `bucketed.rs`/`factory_chain.rs` are written against (the one with
  `DeallocResponse`, `from_memory_chunk` and the cached largest-free
  count) is not among the source files; only an older iteration is.
-/

namespace StackAlloc

/-- The size, in chunks, of each bitmapped stack (`STACK_SIZE`). -/
def STACK_SIZE : Nat := 64

/-- Number of bits of `n` that fit in `fuel` iterations; `bitLenF 64 n` is
the bit length of a 64-bit word, so `64 - bitLenF 64 n` is
`u64::leading_zeros`. -/
def bitLenF : Nat → Nat → Nat
  | 0, _ => 0
  | fuel + 1, n => if n = 0 then 0 else bitLenF fuel (n / 2) + 1

/-- `u64::leading_zeros`, for `n < 2 ^ 64`. -/
def leading_zeros (n : Nat) : Nat := 64 - bitLenF 64 n

/-- Rounds the given number up to fit the alignment; `alignment` must be a
power of two (`round_up_to_alignment` in `bitmapped_stack.rs`).  The Rust
complement `!alignment_mask` of the 64-bit word `alignment - 1` is the
number `2 ^ 64 - alignment`. -/
def round_up_to_alignment (x alignment : Nat) : Nat :=
  let alignment_mask := alignment - 1
  if x &&& alignment_mask != 0 then
    (x + alignment) &&& (2 ^ 64 - alignment)
  else
    x

/-- An upwards-growing stack (`BitmappedStack` in `bitmapped_stack.rs`).
Addresses are modelled as natural numbers. -/
structure BitmappedStack where
  bottom : Nat
  current_height : Nat
  chunk_size : Nat
  bitmap : Nat
deriving DecidableEq

namespace BitmappedStack

/-- `BitmappedStack::new`. -/
def new (pointer chunk_size : Nat) : BitmappedStack :=
  { bottom := pointer, current_height := 0, chunk_size := chunk_size, bitmap := 0 }

/-- `BitmappedStack::chunk_to_ptr`. -/
def chunk_to_ptr (s : BitmappedStack) (chunk : Nat) : Nat :=
  s.bottom + chunk * s.chunk_size

/-- `BitmappedStack::ptr_to_chunk`. -/
def ptr_to_chunk (s : BitmappedStack) (ptr : Nat) : Nat :=
  (ptr - s.bottom) / s.chunk_size

/-- `BitmappedStack::owns`: the code compares against
`chunk_to_ptr(0)` and `chunk_to_ptr(STACK_SIZE - 1)` with `<=` on both
sides. -/
def owns (s : BitmappedStack) (pointer : Nat) : Bool :=
  decide (s.chunk_to_ptr 0 ≤ pointer) && decide (pointer ≤ s.chunk_to_ptr (STACK_SIZE - 1))

/-- `BitmappedStack::is_empty`. -/
def is_empty (s : BitmappedStack) : Bool :=
  s.current_height == 0

/-- `BitmappedStack::chunks_for`: number of chunks for `bytes` bytes,
dividing by the chunk size and rounding up. -/
def chunks_for (s : BitmappedStack) (bytes : Nat) : Nat :=
  bytes / s.chunk_size + (if bytes % s.chunk_size != 0 then 1 else 0)

/-- The mask the Rust code builds for the chunk range `[start, stop)`:
`1u64.wrapping_shl(num).wrapping_sub(1) << start`.  `wrapping_shl` wraps
the shift count modulo 64, hence the `% 64`; in particular a 64-chunk
range yields the mask 0. -/
def range_mask (start stop : Nat) : Nat :=
  ((1 <<< ((stop - start) % 64)) - 1) <<< start

/-- `BitmappedStack::bitmap_allocate` on the range `[start, stop)`. -/
def bitmap_allocate (s : BitmappedStack) (start stop : Nat) : BitmappedStack :=
  { s with bitmap := s.bitmap ||| range_mask start stop }

/-- `BitmappedStack::bitmap_deallocate` on the range `[start, stop)`:
`bitmap &= !mask`, with the 64-bit complement written as xor with
`2 ^ 64 - 1`. -/
def bitmap_deallocate (s : BitmappedStack) (start stop : Nat) : BitmappedStack :=
  { s with bitmap := s.bitmap &&& (range_mask start stop ^^^ (2 ^ 64 - 1)) }

/-- `BitmappedStack::all_deallocated` on the range `[start, stop)`; here
the mask uses the plain (non-wrapping) shift of the source. -/
def all_deallocated (s : BitmappedStack) (start stop : Nat) : Bool :=
  s.bitmap &&& (((1 <<< (stop - start)) - 1) <<< start) == 0

/-- `BitmappedStack::shrink_height`:
`current_height = 64 - bitmap.leading_zeros()`. -/
def shrink_height (s : BitmappedStack) : BitmappedStack :=
  { s with current_height := 64 - leading_zeros s.bitmap }

/-- `BitmappedStack::alloc`.  Returns the updated stack and the returned
pointer, or `none` for `AllocErr`. -/
def alloc (s : BitmappedStack) (size align : Nat) : Option (BitmappedStack × Nat) :=
  let bottom_of_alloc :=
    let stack_ptr := s.chunk_to_ptr s.current_height
    let aligned_stack_ptr := round_up_to_alignment stack_ptr align
    s.ptr_to_chunk aligned_stack_ptr
  if bottom_of_alloc * s.chunk_size + size > STACK_SIZE * s.chunk_size then
    none
  else
    let new_height := bottom_of_alloc + s.chunks_for size
    let s1 := s.bitmap_allocate bottom_of_alloc new_height
    some ({ s1 with current_height := new_height }, s.chunk_to_ptr bottom_of_alloc)

/-- `BitmappedStack::dealloc`. -/
def dealloc (s : BitmappedStack) (ptr size : Nat) : BitmappedStack :=
  let start_chunk := s.ptr_to_chunk ptr
  let end_chunk := start_chunk + s.chunks_for size
  let s1 := s.bitmap_deallocate start_chunk end_chunk
  if s1.current_height = end_chunk then
    ({ s1 with current_height := start_chunk }).shrink_height
  else
    s1

/-- `BitmappedStack::shrink_in_place`. -/
def shrink_in_place (s : BitmappedStack) (ptr size new_size : Nat) : BitmappedStack :=
  let new_chunks := s.chunks_for new_size
  let old_chunks := s.chunks_for size
  let new_end := s.ptr_to_chunk ptr + new_chunks
  let old_end := s.ptr_to_chunk ptr + old_chunks
  let s1 := s.bitmap_deallocate new_end old_end
  if s1.current_height = old_end then
    let s2 := { s1 with current_height := new_end }
    if new_size = 0 then s2.shrink_height else s2
  else
    s1

/-- `BitmappedStack::grow_in_place`; `none` is `CannotReallocInPlace`. -/
def grow_in_place (s : BitmappedStack) (ptr size new_size : Nat) : Option BitmappedStack :=
  let new_chunks := s.chunks_for new_size
  let old_chunks := s.chunks_for size
  let new_end := s.ptr_to_chunk ptr + new_chunks
  let old_end := s.ptr_to_chunk ptr + old_chunks
  if old_end = new_end then
    some s
  else if new_end > STACK_SIZE then
    none
  else if old_end = s.current_height then
    some { (s.bitmap_allocate old_end new_end) with current_height := new_end }
  else if s.all_deallocated old_end new_end then
    some (s.bitmap_allocate old_end new_end)
  else
    none

end BitmappedStack

/-- The size category of an allocation (`SizeCategory` in `bucketed.rs`
and `factory_chain.rs`). -/
inductive SizeCategory
  | VerySmall
  | Small
  | Medium
  | Large
  | VeryLarge
deriving DecidableEq

namespace SizeCategory

/-- `SizeCategory::choose` in `bucketed.rs`: the match arms
`0`, `1..=7`, `8..=63`, `64..=511`, `512..=4095`, `4096..=262144`, `_`
tried in order. -/
def choose (size : Nat) : Option SizeCategory :=
  if size = 0 then none
  else if 1 ≤ size ∧ size ≤ 7 then some .VerySmall
  else if 8 ≤ size ∧ size ≤ 63 then some .Small
  else if 64 ≤ size ∧ size ≤ 511 then some .Medium
  else if 512 ≤ size ∧ size ≤ 4095 then some .Large
  else if 4096 ≤ size ∧ size ≤ 262144 then some .VeryLarge
  else none

/-- `SizeCategory::choose` in `factory_chain.rs`: identical except that
the `Large` arm is written `511..=4095`; since match arms are tried in
order, 511 is still taken by the `64..=511` arm. -/
def choose_fc (size : Nat) : Option SizeCategory :=
  if size = 0 then none
  else if 1 ≤ size ∧ size ≤ 7 then some .VerySmall
  else if 8 ≤ size ∧ size ≤ 63 then some .Small
  else if 64 ≤ size ∧ size ≤ 511 then some .Medium
  else if 511 ≤ size ∧ size ≤ 4095 then some .Large
  else if 4096 ≤ size ∧ size ≤ 262144 then some .VeryLarge
  else none

end SizeCategory

/-- Modelled from the spec: a sized-chain node (§3, §4.2).  This is the
`SizedAllocator` that `bucketed.rs`/`factory_chain.rs` are compiled
against; its source iteration is missing from `src/`.  A node holds a
chunk stack, a cached largest-contiguous-free count, and (here) the
address of its own header in the metadata chain (the `MetadataBox`
pointer).  The backup link is represented by list order: a chain is a
`List Node`, head first. -/
structure Node where
  headerAddr : Nat
  stack : BitmappedStack
  largestFree : Nat
deriving DecidableEq

/-- Modelled from the spec: the action token returned by a chain node's
deallocate (§4.2); `freeNode` is `DeallocResponse::FreeAllocator` of the
missing `sized_allocator.rs` iteration. -/
inductive DeallocResponse
  | noAction
  | collapse
  | freeNode (header : Node)
deriving DecidableEq

/-- Modelled from the spec: the largest contiguous run of free (zero)
bits among the 64 chunk bits of a stack's bitmap, used for the cached
largest-free count (§3 attribute, refreshed on successful allocation). -/
def largestFreeRun (bitmap : Nat) : Nat :=
  ((List.range STACK_SIZE).foldl
    (fun acc i =>
      if bitmap.testBit i then (0, acc.2) else (acc.1 + 1, max acc.2 (acc.1 + 1)))
    (0, 0)).2

/-- Modelled from the spec: a freshly built node over a new stack
(`SizedAllocator::from_memory_chunk`): the stack is empty, so the cached
largest-free count is the full 64 chunks; the header address is assigned
later, when the node is boxed (`MetadataBox::from_pointer_data`). -/
def Node.fresh (memory chunk_size : Nat) : Node :=
  { headerAddr := 0, stack := BitmappedStack.new memory chunk_size, largestFree := STACK_SIZE }

/-- Modelled from the spec: chain allocate (§4.2).  Fast-reject when the
requested size exceeds `cached_largest_free * chunk_size`; otherwise try
the local stack, refreshing the cached largest-free on success; descend
to the backup on failure. -/
def chainAlloc : List Node → Nat → Nat → Option (List Node × Nat)
  | [], _, _ => none
  | n :: rest, size, align =>
    if size > n.largestFree * n.stack.chunk_size then
      match chainAlloc rest size align with
      | some (rest2, p) => some (n :: rest2, p)
      | none => none
    else
      match n.stack.alloc size align with
      | some (st2, p) =>
          some ({ n with stack := st2, largestFree := largestFreeRun st2.bitmap } :: rest, p)
      | none =>
        match chainAlloc rest size align with
        | some (rest2, p) => some (n :: rest2, p)
        | none => none

/-- Modelled from the spec: chain deallocate (§4.2).  If the local stack
owns the pointer, dispatch to it; if the free empties the local bitmap
(invariant (h): a node is empty iff its bitmap is zero), return
`collapse`.  Otherwise recurse into the backup; a `collapse` from the
backup is answered by splicing the collapsed node out and returning
`freeNode` with its header; propagation stops after one hop. -/
def chainDealloc : List Node → Nat → Nat → List Node × DeallocResponse
  | [], _, _ => ([], .noAction)
  | n :: rest, ptr, size =>
    if n.stack.owns ptr then
      let st2 := n.stack.dealloc ptr size
      let n2 := { n with stack := st2 }
      if st2.bitmap = 0 then (n2 :: rest, .collapse) else (n2 :: rest, .noAction)
    else
      match chainDealloc rest ptr size with
      | (rest2, .collapse) =>
        match rest2 with
        | collapsed :: rest3 => (n :: rest3, .freeNode collapsed)
        | [] => (n :: rest2, .noAction)
      | (rest2, r) => (n :: rest2, r)

/-- Modelled from the spec: chain shrink-in-place (§4.2): delegate to the
owning stack and refresh the cached largest-free on success. -/
def chainShrink : List Node → Nat → Nat → Nat → List Node
  | [], _, _, _ => []
  | n :: rest, ptr, size, new_size =>
    if n.stack.owns ptr then
      let st2 := n.stack.shrink_in_place ptr size new_size
      { n with stack := st2, largestFree := largestFreeRun st2.bitmap } :: rest
    else
      n :: chainShrink rest ptr size new_size

/-- Modelled from the spec: chain grow-in-place (§4.2): delegate to the
owning stack and refresh the cached largest-free on success. -/
def chainGrow : List Node → Nat → Nat → Nat → Option (List Node)
  | [], _, _, _ => none
  | n :: rest, ptr, size, new_size =>
    if n.stack.owns ptr then
      match n.stack.grow_in_place ptr size new_size with
      | some st2 =>
          some ({ n with stack := st2, largestFree := largestFreeRun st2.bitmap } :: rest)
      | none => none
    else
      match chainGrow rest ptr size new_size with
      | some rest2 => some (n :: rest2)
      | none => none

/-- Sets the header address of the head node: boxing the head with
`MetadataBox::from_pointer_data(place, node)`. -/
def setHeader : List Node → Nat → List Node
  | [], _ => []
  | n :: rest, a => { n with headerAddr := a } :: rest

/-- Chunk-size constants of `bucketed.rs` / `factory_chain.rs`. -/
def VERY_SMALL_CHUNK_SIZE : Nat := 1

/-- 8-byte chunks of the small chain. -/
def SMALL_CHUNK_SIZE : Nat := 8

/-- 64-byte chunks of the medium chain. -/
def MEDIUM_CHUNK_SIZE : Nat := 64

/-- 512-byte chunks of the large chain. -/
def LARGE_CHUNK_SIZE : Nat := 512

/-- 4096-byte chunks of the very-large chain. -/
def VERY_LARGE_CHUNK_SIZE : Nat := 4096

/-- 64-byte chunks of the metadata chain. -/
def METADATA_CHUNK_SIZE : Nat := 64

/-- Modelled from the spec: the size of `Layout::new::<SizedAllocator>()`.
A header (§3) fits in one 64-byte metadata chunk; any byte count in
`1..=64` behaves identically, we use 56. -/
def HEADER_SIZE : Nat := 56

/-- Modelled from the spec: the alignment of
`Layout::new::<SizedAllocator>()` (a word-aligned struct). -/
def HEADER_ALIGN : Nat := 8

/-- The bucket set (`Buckets` in `bucketed.rs`): one chain head per size
category plus the metadata chain.  `[]` plays the role of `None`.  The
`MemorySource` is modelled as the list of base addresses of the
256 KiB blocks it will hand out. -/
structure Buckets where
  very_small : List Node
  small : List Node
  medium : List Node
  metadata : List Node
  large : List Node
  very_large : List Node
  source : List Nat
deriving DecidableEq

namespace Buckets

/-- `MemorySource::get_block`. -/
def get_block (s : Buckets) : Option Nat × Buckets :=
  match s.source with
  | [] => (none, s)
  | b :: rest => (some b, { s with source := rest })

/-- The chain of a size category (`owner_of` dispatches on this). -/
def bucket (s : Buckets) : SizeCategory → List Node
  | .VerySmall => s.very_small
  | .Small => s.small
  | .Medium => s.medium
  | .Large => s.large
  | .VeryLarge => s.very_large

/-- Replaces the chain of a size category. -/
def setBucket (s : Buckets) : SizeCategory → List Node → Buckets
  | .VerySmall, c => { s with very_small := c }
  | .Small, c => { s with small := c }
  | .Medium, c => { s with medium := c }
  | .Large, c => { s with large := c }
  | .VeryLarge, c => { s with very_large := c }

end Buckets

/-- Recursion fuel for the router's `dealloc` (the Rust recursion
`self.dealloc(stack_ptr, stack_layout)` inside a collapse; its depth is
bounded by the number of size categories). -/
def FUEL : Nat := 8

namespace Buckets

/-- `BucketedAllocator::extend_very_large`: take a fresh block from the
source, build a new head node with the former chain as backup, and store
its header — from the existing metadata chain when possible, otherwise by
the §4.4 bootstrap (carve a metadata stack out of the new node itself,
self-host the metadata header, then store the new node's header). -/
def extend_very_large (s : Buckets) : Bool × Buckets :=
  match s.get_block with
  | (none, s1) => (false, s1)
  | (some memory, s1) =>
    let old_very_large := s1.very_large
    let s2 := { s1 with very_large := [] }
    let new_chain := Node.fresh memory VERY_LARGE_CHUNK_SIZE :: old_very_large
    match chainAlloc s2.metadata HEADER_SIZE HEADER_ALIGN with
    | some (md2, place) =>
        (true, { s2 with metadata := md2, very_large := setHeader new_chain place })
    | none =>
      match chainAlloc new_chain (METADATA_CHUNK_SIZE * STACK_SIZE) METADATA_CHUNK_SIZE with
      | none => (false, s2)
      | some (vl2, metadata_memory) =>
        let old_metadata := s2.metadata
        let s3 := { s2 with metadata := [] }
        let meta_chain := Node.fresh metadata_memory METADATA_CHUNK_SIZE :: old_metadata
        match chainAlloc meta_chain HEADER_SIZE HEADER_ALIGN with
        | none => (false, s3)
        | some (meta2, place1) =>
          let meta_chain2 := setHeader meta2 place1
          match chainAlloc meta_chain2 HEADER_SIZE HEADER_ALIGN with
          | none => (false, s3)
          | some (meta3, place2) =>
            (true, { s3 with metadata := meta3, very_large := setHeader vl2 place2 })

/-- `BucketedAllocator::get_very_large`: the chain, extended when
absent.  The flag is false when the extension failed. -/
def get_very_large (s : Buckets) : Bool × Buckets :=
  match s.very_large with
  | [] => extend_very_large s
  | _ :: _ => (true, s)

/-- `BucketedAllocator::alloc_very_large`: get the chain (extending when
absent), try its allocate, and on failure extend once more and retry on
the new head. -/
def alloc_very_large (s : Buckets) (size align : Nat) : Option Nat × Buckets :=
  match get_very_large s with
  | (false, s1) => (none, s1)
  | (true, s1) =>
    match chainAlloc s1.very_large size align with
    | some (c2, p) => (some p, { s1 with very_large := c2 })
    | none =>
      match extend_very_large s1 with
      | (false, s2) => (none, s2)
      | (true, s2) =>
        match chainAlloc s2.very_large size align with
        | some (c2, p) => (some p, { s2 with very_large := c2 })
        | none => (none, s2)

/-- `BucketedAllocator::alloc_very_large_no_metadata`: like
`alloc_very_large` but a new node created by an extension is handed back
unsaved (no header is stored); the FIXME paths that lose the chain are
reproduced. -/
def alloc_very_large_no_metadata (s : Buckets) (size align : Nat) :
    Option (Nat × Option (List Node)) × Buckets :=
  match s.very_large with
  | _ :: _ =>
    match chainAlloc s.very_large size align with
    | some (vl2, mem) => (some (mem, none), { s with very_large := vl2 })
    | none =>
      match s.get_block with
      | (none, s1) => (none, s1)
      | (some new_mem, s1) =>
        let old_very_large := s1.very_large
        let s2 := { s1 with very_large := [] }
        match chainAlloc (Node.fresh new_mem VERY_LARGE_CHUNK_SIZE :: old_very_large) size align with
        | some (vl2, mem) => (some (mem, some vl2), s2)
        | none => (none, s2)
  | [] =>
    match s.get_block with
    | (none, s1) => (none, s1)
    | (some new_mem, s1) =>
      let old_very_large := s1.very_large
      let s2 := { s1 with very_large := [] }
      match chainAlloc (Node.fresh new_mem VERY_LARGE_CHUNK_SIZE :: old_very_large) size align with
      | some (vl2, mem) => (some (mem, some vl2), s2)
      | none => (none, s2)

/-- `BucketedAllocator::extend_metadata` (bucketed.rs): build a new
metadata stack from an unsaved very-large allocation; when that produced
an unsaved very-large node, reserve a chunk in the fresh metadata stack
for its header and install the node as head of the very-large chain; then
self-host the metadata node's own header. -/
def extend_metadata (s : Buckets) : Bool × Buckets :=
  match alloc_very_large_no_metadata s (METADATA_CHUNK_SIZE * STACK_SIZE) METADATA_CHUNK_SIZE with
  | (none, s1) => (false, s1)
  | (some (memory, more_metadata), s1) =>
    let old_metadata := s1.metadata
    let s2 := { s1 with metadata := [] }
    let meta_chain := Node.fresh memory METADATA_CHUNK_SIZE :: old_metadata
    match more_metadata with
    | some vl_chain =>
      match chainAlloc meta_chain HEADER_SIZE HEADER_ALIGN with
      | none => (false, s2)
      | some (meta2, mem1) =>
        let s3 := { s2 with very_large := setHeader vl_chain mem1 }
        match chainAlloc meta2 HEADER_SIZE HEADER_ALIGN with
        | none => (false, s3)
        | some (meta3, mem2) => (true, { s3 with metadata := setHeader meta3 mem2 })
    | none =>
      match chainAlloc meta_chain HEADER_SIZE HEADER_ALIGN with
      | none => (false, s2)
      | some (meta2, mem2) => (true, { s2 with metadata := setHeader meta2 mem2 })

/-- `FactoryChain::extend_metadata` (factory_chain.rs): identical to the
bucketed.rs version except that the unsaved very-large node is installed
with `self.large = Some(...)` instead of `self.very_large = Some(...)`. -/
def factory_extend_metadata (s : Buckets) : Bool × Buckets :=
  match alloc_very_large_no_metadata s (METADATA_CHUNK_SIZE * STACK_SIZE) METADATA_CHUNK_SIZE with
  | (none, s1) => (false, s1)
  | (some (memory, more_metadata), s1) =>
    let old_metadata := s1.metadata
    let s2 := { s1 with metadata := [] }
    let meta_chain := Node.fresh memory METADATA_CHUNK_SIZE :: old_metadata
    match more_metadata with
    | some vl_chain =>
      match chainAlloc meta_chain HEADER_SIZE HEADER_ALIGN with
      | none => (false, s2)
      | some (meta2, mem1) =>
        let s3 := { s2 with large := setHeader vl_chain mem1 }
        match chainAlloc meta2 HEADER_SIZE HEADER_ALIGN with
        | none => (false, s3)
        | some (meta3, mem2) => (true, { s3 with metadata := setHeader meta3 mem2 })
    | none =>
      match chainAlloc meta_chain HEADER_SIZE HEADER_ALIGN with
      | none => (false, s2)
      | some (meta2, mem2) => (true, { s2 with metadata := setHeader meta2 mem2 })

/-- `BucketedAllocator::get_metadata`: the chain, extended when absent. -/
def get_metadata (s : Buckets) : Bool × Buckets :=
  match s.metadata with
  | [] => extend_metadata s
  | _ :: _ => (true, s)

/-- `BucketedAllocator::alloc_metadata`. -/
def alloc_metadata (s : Buckets) (size align : Nat) : Option Nat × Buckets :=
  match get_metadata s with
  | (false, s1) => (none, s1)
  | (true, s1) =>
    match chainAlloc s1.metadata size align with
    | some (c2, p) => (some p, { s1 with metadata := c2 })
    | none =>
      match extend_metadata s1 with
      | (false, s2) => (none, s2)
      | (true, s2) =>
        match chainAlloc s2.metadata size align with
        | some (c2, p) => (some p, { s2 with metadata := c2 })
        | none => (none, s2)

/-- `BucketedAllocator::store_metadata`: reserve a header chunk in the
metadata chain and box the node at it. -/
def store_metadata (s : Buckets) (n : Node) : Option Node × Buckets :=
  match alloc_metadata s HEADER_SIZE HEADER_ALIGN with
  | (some p, s1) => (some { n with headerAddr := p }, s1)
  | (none, s1) => (none, s1)

/-- `BucketedAllocator::extend_large`: stack memory from the very-large
chain, header from the metadata chain.  As in the source, when storing
the header fails the former large chain (already taken) is lost. -/
def extend_large (s : Buckets) : Bool × Buckets :=
  match alloc_very_large s (LARGE_CHUNK_SIZE * STACK_SIZE) LARGE_CHUNK_SIZE with
  | (none, s1) => (false, s1)
  | (some memory, s1) =>
    let old_large := s1.large
    let s2 := { s1 with large := [] }
    match store_metadata s2 (Node.fresh memory LARGE_CHUNK_SIZE) with
    | (none, s3) => (false, s3)
    | (some boxed, s3) => (true, { s3 with large := boxed :: old_large })

/-- `BucketedAllocator::get_large`: the chain, extended when absent. -/
def get_large (s : Buckets) : Bool × Buckets :=
  match s.large with
  | [] => extend_large s
  | _ :: _ => (true, s)

/-- `BucketedAllocator::alloc_large`. -/
def alloc_large (s : Buckets) (size align : Nat) : Option Nat × Buckets :=
  match get_large s with
  | (false, s1) => (none, s1)
  | (true, s1) =>
    match chainAlloc s1.large size align with
    | some (c2, p) => (some p, { s1 with large := c2 })
    | none =>
      match extend_large s1 with
      | (false, s2) => (none, s2)
      | (true, s2) =>
        match chainAlloc s2.large size align with
        | some (c2, p) => (some p, { s2 with large := c2 })
        | none => (none, s2)

/-- `BucketedAllocator::extend_medium`. -/
def extend_medium (s : Buckets) : Bool × Buckets :=
  match alloc_very_large s (MEDIUM_CHUNK_SIZE * STACK_SIZE) MEDIUM_CHUNK_SIZE with
  | (none, s1) => (false, s1)
  | (some memory, s1) =>
    let old_medium := s1.medium
    let s2 := { s1 with medium := [] }
    match store_metadata s2 (Node.fresh memory MEDIUM_CHUNK_SIZE) with
    | (none, s3) => (false, s3)
    | (some boxed, s3) => (true, { s3 with medium := boxed :: old_medium })

/-- `BucketedAllocator::get_medium`: the chain, extended when absent. -/
def get_medium (s : Buckets) : Bool × Buckets :=
  match s.medium with
  | [] => extend_medium s
  | _ :: _ => (true, s)

/-- `BucketedAllocator::alloc_medium`. -/
def alloc_medium (s : Buckets) (size align : Nat) : Option Nat × Buckets :=
  match get_medium s with
  | (false, s1) => (none, s1)
  | (true, s1) =>
    match chainAlloc s1.medium size align with
    | some (c2, p) => (some p, { s1 with medium := c2 })
    | none =>
      match extend_medium s1 with
      | (false, s2) => (none, s2)
      | (true, s2) =>
        match chainAlloc s2.medium size align with
        | some (c2, p) => (some p, { s2 with medium := c2 })
        | none => (none, s2)

/-- `BucketedAllocator::extend_small`. -/
def extend_small (s : Buckets) : Bool × Buckets :=
  match alloc_large s (SMALL_CHUNK_SIZE * STACK_SIZE) SMALL_CHUNK_SIZE with
  | (none, s1) => (false, s1)
  | (some memory, s1) =>
    let old_small := s1.small
    let s2 := { s1 with small := [] }
    match store_metadata s2 (Node.fresh memory SMALL_CHUNK_SIZE) with
    | (none, s3) => (false, s3)
    | (some boxed, s3) => (true, { s3 with small := boxed :: old_small })

/-- `BucketedAllocator::get_small`: the chain, extended when absent. -/
def get_small (s : Buckets) : Bool × Buckets :=
  match s.small with
  | [] => extend_small s
  | _ :: _ => (true, s)

/-- `BucketedAllocator::alloc_small`. -/
def alloc_small (s : Buckets) (size align : Nat) : Option Nat × Buckets :=
  match get_small s with
  | (false, s1) => (none, s1)
  | (true, s1) =>
    match chainAlloc s1.small size align with
    | some (c2, p) => (some p, { s1 with small := c2 })
    | none =>
      match extend_small s1 with
      | (false, s2) => (none, s2)
      | (true, s2) =>
        match chainAlloc s2.small size align with
        | some (c2, p) => (some p, { s2 with small := c2 })
        | none => (none, s2)

/-- `BucketedAllocator::extend_very_small`. -/
def extend_very_small (s : Buckets) : Bool × Buckets :=
  match alloc_medium s (VERY_SMALL_CHUNK_SIZE * STACK_SIZE) VERY_SMALL_CHUNK_SIZE with
  | (none, s1) => (false, s1)
  | (some memory, s1) =>
    let old_very_small := s1.very_small
    let s2 := { s1 with very_small := [] }
    match store_metadata s2 (Node.fresh memory VERY_SMALL_CHUNK_SIZE) with
    | (none, s3) => (false, s3)
    | (some boxed, s3) => (true, { s3 with very_small := boxed :: old_very_small })

/-- `BucketedAllocator::get_very_small`: the chain, extended when absent. -/
def get_very_small (s : Buckets) : Bool × Buckets :=
  match s.very_small with
  | [] => extend_very_small s
  | _ :: _ => (true, s)

/-- `BucketedAllocator::alloc_very_small`. -/
def alloc_very_small (s : Buckets) (size align : Nat) : Option Nat × Buckets :=
  match get_very_small s with
  | (false, s1) => (none, s1)
  | (true, s1) =>
    match chainAlloc s1.very_small size align with
    | some (c2, p) => (some p, { s1 with very_small := c2 })
    | none =>
      match extend_very_small s1 with
      | (false, s2) => (none, s2)
      | (true, s2) =>
        match chainAlloc s2.very_small size align with
        | some (c2, p) => (some p, { s2 with very_small := c2 })
        | none => (none, s2)

/-- `BucketedAllocator::alloc_size`. -/
def alloc_size (s : Buckets) (size align : Nat) : SizeCategory → Option Nat × Buckets
  | .VerySmall => alloc_very_small s size align
  | .Small => alloc_small s size align
  | .Medium => alloc_medium s size align
  | .Large => alloc_large s size align
  | .VeryLarge => alloc_very_large s size align

/-- `BucketedAllocator::alloc` (the router's allocate). -/
def alloc (s : Buckets) (size align : Nat) : Option Nat × Buckets :=
  match SizeCategory.choose size with
  | some cat => alloc_size s size align cat
  | none => (none, s)

/-- `BucketedAllocator::dealloc` (the router's deallocate), with explicit
recursion fuel for the collapse recursion.  When the owning chain answers
`freeNode`, the collapsed node's stack is deallocated through the normal
router path (size `chunk_size * STACK_SIZE`) and then its header is
deallocated from the metadata chain.  The `expect`/`unwrap` panic paths
(no owner, no metadata chain) are modelled as no-ops; they are not
reached in the theorems below. -/
def dealloc : Nat → Buckets → Nat → Nat → Buckets
  | 0, s, _, _ => s
  | fuel + 1, s, ptr, size =>
    if size = 0 then s
    else
      match SizeCategory.choose size with
      | none => s
      | some cat =>
        let res := chainDealloc (s.bucket cat) ptr size
        let s1 := s.setBucket cat res.1
        match res.2 with
        | .freeNode hdr =>
          let s2 := dealloc fuel s1 hdr.stack.bottom (hdr.stack.chunk_size * STACK_SIZE)
          { s2 with metadata := (chainDealloc s2.metadata hdr.headerAddr HEADER_SIZE).1 }
        | _ => s1

end Buckets

/-- Outcome of the router's `realloc`: the returned pointer (`none` for
`AllocErr`), the resulting bucket state, and whether the fallback path
executed its `ptr::copy_nonoverlapping` and its `self.dealloc(ptr,
layout)` of the original allocation. -/
structure ReallocResult where
  result : Option Nat
  state : Buckets
  copied : Bool
  freedOld : Bool
deriving DecidableEq

namespace Buckets

/-- `BucketedAllocator::realloc`: when old and new sizes share a size
category, shrink in place (always reported as success) or try to grow in
place; otherwise, or when growing fails, allocate fresh memory, copy
`min(old, new)` bytes and deallocate the old allocation — but only when
the fresh allocation succeeded.  The `expect` panic path (same category
but no owning chain) is modelled as an error result; it is not reached in
the theorems below. -/
def realloc (s : Buckets) (ptr size new_size align : Nat) : ReallocResult :=
  let fallback := fun (s0 : Buckets) =>
    match Buckets.alloc s0 new_size align with
    | (some new_mem, s1) =>
      { result := some new_mem, state := dealloc FUEL s1 ptr size,
        copied := true, freedOld := true }
    | (none, s1) => { result := none, state := s1, copied := false, freedOld := false }
  if SizeCategory.choose size = SizeCategory.choose new_size then
    match SizeCategory.choose size with
    | none => { result := none, state := s, copied := false, freedOld := false }
    | some cat =>
      match s.bucket cat with
      | [] => { result := none, state := s, copied := false, freedOld := false }
      | _ :: _ =>
        if new_size ≤ size then
          { result := some ptr,
            state := s.setBucket cat (chainShrink (s.bucket cat) ptr size new_size),
            copied := false, freedOld := false }
        else
          match chainGrow (s.bucket cat) ptr size new_size with
          | some c2 =>
            { result := some ptr, state := s.setBucket cat c2,
              copied := false, freedOld := false }
          | none => fallback s
  else fallback s

end Buckets

/-- The chunk index of the bottom of an allocation, as `alloc` computes
it: round the address `base + current_height * chunk_size` up to the
alignment, then convert back to a chunk index. -/
def BitmappedStack.allocBottom (s : BitmappedStack) (align : Nat) : Nat :=
  s.ptr_to_chunk (round_up_to_alignment (s.chunk_to_ptr s.current_height) align)

/-- States of a `BitmappedStack` reachable from a fresh stack by
successful operations applied with the sized-free discipline: `dealloc`,
`shrink_in_place` and `grow_in_place` are applied only to live
allocations with their current layouts (a shrink or grow updates the
layout of the allocation, as the reallocate ABI does).  The list carries
the live allocations as (pointer, size, align) triples.  The alignment of
a request is a power of two and address arithmetic does not overflow
`usize`. -/
inductive Reaches : BitmappedStack → List (Nat × Nat × Nat) → Prop
  | init (base chunk : Nat) (hc : 0 < chunk) : Reaches (BitmappedStack.new base chunk) []
  | alloc (s : BitmappedStack) (L : List (Nat × Nat × Nat)) (s2 : BitmappedStack)
      (p size align k : Nat) (h : Reaches s L) (hsize : 0 < size)
      (halign : align = 2 ^ k)
      (hover : s.bottom + s.current_height * s.chunk_size + align < 2 ^ 64)
      (hstep : s.alloc size align = some (s2, p)) :
      Reaches s2 ((p, size, align) :: L)
  | dealloc (s : BitmappedStack) (L : List (Nat × Nat × Nat)) (p size align : Nat)
      (h : Reaches s L) (hmem : (p, size, align) ∈ L) :
      Reaches (s.dealloc p size) (L.erase (p, size, align))
  | shrink (s : BitmappedStack) (L : List (Nat × Nat × Nat)) (p size align new_size : Nat)
      (h : Reaches s L) (hmem : (p, size, align) ∈ L) (hpos : 0 < new_size)
      (hle : new_size ≤ size) :
      Reaches (s.shrink_in_place p size new_size) ((p, new_size, align) :: L.erase (p, size, align))
  | grow (s : BitmappedStack) (L : List (Nat × Nat × Nat)) (s2 : BitmappedStack)
      (p size align new_size : Nat) (h : Reaches s L) (hmem : (p, size, align) ∈ L)
      (hle : size ≤ new_size) (hstep : s.grow_in_place p size new_size = some s2) :
      Reaches s2 ((p, new_size, align) :: L.erase (p, size, align))

/-- States reachable by allocations and matching deallocations only (the
matched-sequence discipline of §8): every deallocation carries the
pointer and size of a live allocation. -/
inductive MReach : BitmappedStack → List (Nat × Nat) → Prop
  | init (base chunk : Nat) (hc : 0 < chunk) : MReach (BitmappedStack.new base chunk) []
  | alloc (s : BitmappedStack) (L : List (Nat × Nat)) (s2 : BitmappedStack)
      (p size align k : Nat) (h : MReach s L) (hsize : 0 < size)
      (halign : align = 2 ^ k)
      (hover : s.bottom + s.current_height * s.chunk_size + align < 2 ^ 64)
      (hstep : s.alloc size align = some (s2, p)) :
      MReach s2 ((p, size) :: L)
  | dealloc (s : BitmappedStack) (L : List (Nat × Nat)) (p size : Nat)
      (h : MReach s L) (hmem : (p, size) ∈ L) :
      MReach (s.dealloc p size) (L.erase (p, size))

/-- `chunks_for` as a function of the chunk size alone;
`s.chunks_for bytes` is definitionally `chunksFor s.chunk_size bytes`. -/
def chunksFor (c bytes : Nat) : Nat :=
  bytes / c + (if bytes % c != 0 then 1 else 0)

/-- First chunk of a live allocation (ptr, size) on a stack with the
given base and chunk size. -/
def entryStart (base c : Nat) (e : Nat × Nat) : Nat :=
  (e.1 - base) / c

/-- One-past-the-last chunk of a live allocation (ptr, size). -/
def entryStop (base c : Nat) (e : Nat × Nat) : Nat :=
  entryStart base c e + chunksFor c e.2

/-- The chunks of `e` whose bits the (wrapping) range mask actually
covers: the full chunk range, except that a 64-chunk allocation covers no
bits at all (`wrapping_shl` by 64 is a shift by 0). -/
def maskCov (base c : Nat) (e : Nat × Nat) (i : Nat) : Prop :=
  entryStart base c e ≤ i ∧ i < entryStart base c e + chunksFor c e.2 % 64

/-- The inductive invariant tying a stack to its list of live
allocations: positive chunk size; every live allocation spans at least
one chunk and ends within the 64-chunk capacity; live chunk ranges are
pairwise disjoint; a bitmap bit is set exactly when some live allocation
mask-covers it; every live allocation ends at or below the current
height; and the current height is 0 or is the end of some live
allocation. -/
structure StackInv (s : BitmappedStack) (L : List (Nat × Nat)) : Prop where
  chunk_pos : 0 < s.chunk_size
  ent : ∀ e ∈ L, 0 < chunksFor s.chunk_size e.2 ∧ entryStop s.bottom s.chunk_size e ≤ 64
  disj : L.Pairwise (fun a b =>
    entryStop s.bottom s.chunk_size a ≤ entryStart s.bottom s.chunk_size b ∨
    entryStop s.bottom s.chunk_size b ≤ entryStart s.bottom s.chunk_size a)
  bits : ∀ i, s.bitmap.testBit i = true ↔ ∃ e ∈ L, maskCov s.bottom s.chunk_size e i
  below : ∀ e ∈ L, entryStop s.bottom s.chunk_size e ≤ s.current_height
  top : s.current_height = 0 ∨
    ∃ e ∈ L, entryStop s.bottom s.chunk_size e = s.current_height

/-! ### Bit-level groundwork -/

theorem bitLenF_le (f : Nat) : ∀ n, bitLenF f n ≤ f := by
  induction f with
  | zero => intro n; simp [bitLenF]
  | succ f ih =>
    intro n
    simp only [bitLenF]
    split
    · omega
    · have := ih (n / 2); omega

theorem bitLenF_zero (f : Nat) : bitLenF f 0 = 0 := by
  cases f <;> simp [bitLenF]

theorem testBit_lt_bitLenF (f : Nat) : ∀ n i, n < 2 ^ f → n.testBit i = true →
    i < bitLenF f n := by
  induction f with
  | zero =>
    intro n i hn hb
    interval_cases n
    simp [Nat.zero_testBit] at hb
  | succ f ih =>
    intro n i hn hb
    have hn0 : n ≠ 0 := by
      rintro rfl; simp [Nat.zero_testBit] at hb
    simp only [bitLenF, hn0, if_false]
    cases i with
    | zero => omega
    | succ j =>
      rw [Nat.testBit_succ] at hb
      have hdiv : n / 2 < 2 ^ f := by
        rw [pow_succ] at hn; omega
      have := ih (n / 2) j hdiv hb
      omega

theorem bitLenF_pos (f n : Nat) (hn0 : n ≠ 0) : 0 < bitLenF (f + 1) n := by
  simp [bitLenF, hn0]

theorem testBit_bitLenF_pred (f : Nat) : ∀ n, n ≠ 0 → n < 2 ^ f →
    n.testBit (bitLenF f n - 1) = true := by
  induction f with
  | zero => intro n hn0 hn; omega
  | succ f ih =>
    intro n hn0 hn
    simp only [bitLenF, hn0, if_false]
    by_cases h2 : n / 2 = 0
    · have : n = 1 := by omega
      subst this
      simp [h2, bitLenF_zero, Nat.testBit_zero]
    · have hdiv : n / 2 < 2 ^ f := by
        rw [pow_succ] at hn; omega
      have hpos : 0 < bitLenF f (n / 2) := by
        cases f with
        | zero => omega
        | succ f => exact bitLenF_pos f (n / 2) h2
      have hrw : bitLenF f (n / 2) + 1 - 1 = (bitLenF f (n / 2) - 1) + 1 := by omega
      rw [hrw, Nat.testBit_succ]
      exact ih (n / 2) h2 hdiv

theorem testBit_pred_size {x : Nat} (hx : x ≠ 0) : x.testBit (Nat.size x - 1) = true := by
  have hpos : 0 < Nat.size x := Nat.size_pos.mpr (Nat.pos_of_ne_zero hx)
  have h1 : 2 ^ (Nat.size x - 1) ≤ x := Nat.lt_size.mp (by omega)
  have h2 : x < 2 ^ Nat.size x := Nat.lt_size_self x
  have hsz : Nat.size x = (Nat.size x - 1) + 1 := by omega
  rw [Nat.testBit_to_div_mod]
  have h3 : x / 2 ^ (Nat.size x - 1) = 1 := by
    have hlow : 1 ≤ x / 2 ^ (Nat.size x - 1) :=
      (Nat.le_div_iff_mul_le (Nat.pos_pow_of_pos _ (by norm_num))).mpr (by omega)
    have h4 : x < 2 ^ (Nat.size x - 1) * 2 := by
      rw [← pow_succ, ← hsz]; exact h2
    have hhigh : x / 2 ^ (Nat.size x - 1) < 2 := Nat.div_lt_of_lt_mul h4
    omega
  simp [h3]

theorem lt_two_pow_of_high_bits {x n : Nat} (h : ∀ i, n ≤ i → x.testBit i = false) :
    x < 2 ^ n := by
  by_cases hx : x = 0
  · subst hx; exact Nat.pos_pow_of_pos _ (by norm_num)
  · by_contra hlt
    push_neg at hlt
    have hsz : n < Nat.size x := Nat.lt_size.mpr hlt
    have hbit := testBit_pred_size hx
    rw [h (Nat.size x - 1) (by omega)] at hbit
    exact absurd hbit (by simp)

theorem land_mod_two_pow (y k : Nat) : y &&& (2 ^ k - 1) = y % 2 ^ k := by
  apply Nat.eq_of_testBit_eq
  intro i
  rw [Nat.testBit_land, Nat.testBit_two_pow_sub_one, Nat.testBit_mod_two_pow,
    Bool.and_comm]

theorem land_compl_two_pow {y k : Nat} (hk : k ≤ 64) (hy : y < 2 ^ 64) :
    y &&& (2 ^ 64 - 2 ^ k) = y - y % 2 ^ k := by
  have hrhs : y - y % 2 ^ k = (y >>> k) <<< k := by
    rw [Nat.shiftRight_eq_div_pow, Nat.shiftLeft_eq, Nat.mul_comm]
    have := Nat.div_add_mod y (2 ^ k)
    omega
  have hmask : (2 : Nat) ^ 64 - 2 ^ k = (2 ^ (64 - k) - 1) <<< k := by
    rw [Nat.shiftLeft_eq, Nat.sub_mul, one_mul, ← pow_add]
    congr 2
    omega
  rw [hrhs, hmask]
  apply Nat.eq_of_testBit_eq
  intro i
  rw [Nat.testBit_land, Nat.testBit_shiftLeft, Nat.testBit_shiftLeft,
    Nat.testBit_two_pow_sub_one, Nat.testBit_shiftRight]
  by_cases hik : k ≤ i
  · have hki : k + (i - k) = i := by omega
    rw [hki]
    by_cases h64 : i < 64
    · simp [ge_iff_le, hik, show i - k < 64 - k by omega]
    · have hbit : y.testBit i = false :=
        Nat.testBit_eq_false_of_lt
          (lt_of_lt_of_le hy (Nat.pow_le_pow_right (by norm_num) (by omega)))
      simp [ge_iff_le, hik, hbit, show ¬(i - k < 64 - k) by omega]
  · simp [ge_iff_le, hik]

theorem range_mask_testBit (start stop i : Nat) :
    (BitmappedStack.range_mask start stop).testBit i =
      (decide (start ≤ i) && decide (i < start + (stop - start) % 64)) := by
  unfold BitmappedStack.range_mask
  have h1 : (1 <<< ((stop - start) % 64) - 1 : Nat) = 2 ^ ((stop - start) % 64) - 1 := by
    rw [Nat.shiftLeft_eq, one_mul]
  rw [h1, Nat.testBit_shiftLeft, Nat.testBit_two_pow_sub_one, Bool.eq_iff_iff]
  simp only [Bool.and_eq_true, decide_eq_true_eq, ge_iff_le]
  omega

theorem testBit_compl64 (m i : Nat) (hm : m < 2 ^ 64) :
    (m ^^^ (2 ^ 64 - 1)).testBit i = (decide (i < 64) && !(m.testBit i)) := by
  rw [Nat.testBit_xor, Nat.testBit_two_pow_sub_one]
  by_cases h : i < 64
  · simp [h]
  · have hbit : m.testBit i = false :=
      Nat.testBit_eq_false_of_lt
        (lt_of_lt_of_le hm (Nat.pow_le_pow_right (by norm_num) (by omega)))
    simp [h, hbit]

theorem range_mask_lt {start stop : Nat} (h : start + (stop - start) % 64 ≤ 64) :
    BitmappedStack.range_mask start stop < 2 ^ 64 := by
  apply lt_two_pow_of_high_bits
  intro i hi
  rw [range_mask_testBit]
  simp only [Bool.and_eq_false_iff, decide_eq_false_iff_not, not_le, not_lt]
  omega

/-! ### Properties of `round_up_to_alignment` -/

theorem round_up_branch (x k : Nat) :
    round_up_to_alignment x (2 ^ k) =
      if x % 2 ^ k = 0 then x else (x + 2 ^ k) &&& (2 ^ 64 - 2 ^ k) := by
  unfold round_up_to_alignment
  by_cases h : x % 2 ^ k = 0
  · simp [land_mod_two_pow, h]
  · simp [land_mod_two_pow, h]

theorem round_up_ge {x k : Nat} (hover : x + 2 ^ k < 2 ^ 64) :
    x ≤ round_up_to_alignment x (2 ^ k) := by
  rw [round_up_branch]
  split
  · exact le_refl x
  · have hk : k ≤ 64 := by
      by_contra hk
      have : (2 : Nat) ^ 64 < 2 ^ k := Nat.pow_lt_pow_right (by norm_num) (by omega)
      omega
    rw [land_compl_two_pow hk hover]
    have hmod : (x + 2 ^ k) % 2 ^ k = x % 2 ^ k := Nat.add_mod_right x (2 ^ k)
    have hlt : x % 2 ^ k < 2 ^ k := Nat.mod_lt x (Nat.pos_pow_of_pos _ (by norm_num))
    omega

theorem round_up_mod {x k : Nat} (hover : x + 2 ^ k < 2 ^ 64) :
    round_up_to_alignment x (2 ^ k) % 2 ^ k = 0 := by
  rw [round_up_branch]
  split
  · assumption
  · have hk : k ≤ 64 := by
      by_contra hk
      have : (2 : Nat) ^ 64 < 2 ^ k := Nat.pow_lt_pow_right (by norm_num) (by omega)
      omega
    rw [land_compl_two_pow hk hover]
    have h0 := Nat.div_add_mod (x + 2 ^ k) (2 ^ k)
    have h1 : x + 2 ^ k - (x + 2 ^ k) % 2 ^ k = 2 ^ k * ((x + 2 ^ k) / 2 ^ k) := by omega
    rw [h1, Nat.mul_mod_right]

/-! ### Properties of `chunks_for` and the capacity guard -/

theorem chunks_for_eq (s : BitmappedStack) (bytes : Nat) :
    s.chunks_for bytes =
      bytes / s.chunk_size + (if bytes % s.chunk_size = 0 then 0 else 1) := by
  unfold BitmappedStack.chunks_for
  by_cases hz : bytes % s.chunk_size = 0 <;> simp [hz]

theorem chunks_for_le_iff (s : BitmappedStack) (hc : 0 < s.chunk_size) (bytes m : Nat) :
    s.chunks_for bytes ≤ m ↔ bytes ≤ m * s.chunk_size := by
  rw [chunks_for_eq]
  have h0 := Nat.div_add_mod bytes s.chunk_size
  have hr : bytes % s.chunk_size < s.chunk_size := Nat.mod_lt bytes hc
  by_cases hz : bytes % s.chunk_size = 0
  · rw [if_pos hz, Nat.add_zero]
    constructor
    · intro h
      calc bytes = s.chunk_size * (bytes / s.chunk_size) := by omega
        _ ≤ s.chunk_size * m := Nat.mul_le_mul_left _ h
        _ = m * s.chunk_size := Nat.mul_comm _ _
    · intro h
      by_contra hgt
      push_neg at hgt
      have h1 : m * s.chunk_size < (bytes / s.chunk_size) * s.chunk_size :=
        (Nat.mul_lt_mul_right hc).mpr hgt
      have hcm : (bytes / s.chunk_size) * s.chunk_size
          = s.chunk_size * (bytes / s.chunk_size) := Nat.mul_comm _ _
      omega
  · rw [if_neg hz]
    constructor
    · intro h
      have hm : bytes / s.chunk_size + 1 ≤ m := h
      calc bytes = s.chunk_size * (bytes / s.chunk_size) + bytes % s.chunk_size := by omega
        _ ≤ s.chunk_size * (bytes / s.chunk_size) + s.chunk_size := by omega
        _ = (bytes / s.chunk_size + 1) * s.chunk_size := by ring
        _ ≤ m * s.chunk_size := Nat.mul_le_mul_right _ hm
    · intro h
      by_contra hgt
      push_neg at hgt
      have hmle : m ≤ bytes / s.chunk_size := by omega
      have h1 : m * s.chunk_size ≤ (bytes / s.chunk_size) * s.chunk_size :=
        Nat.mul_le_mul_right _ hmle
      have hcm : (bytes / s.chunk_size) * s.chunk_size
          = s.chunk_size * (bytes / s.chunk_size) := Nat.mul_comm _ _
      omega

theorem chunks_for_pos (s : BitmappedStack) (hc : 0 < s.chunk_size) {bytes : Nat}
    (hb : 0 < bytes) : 0 < s.chunks_for bytes := by
  by_contra h
  push_neg at h
  have h0 : s.chunks_for bytes ≤ 0 := by omega
  rw [chunks_for_le_iff s hc] at h0
  omega

/-- `alloc`, written out as a single conditional: the guard and, on
success, the new bitmap, the new height and the returned pointer. -/
theorem alloc_eq (s : BitmappedStack) (size align : Nat) :
    s.alloc size align =
      if s.allocBottom align * s.chunk_size + size > STACK_SIZE * s.chunk_size then
        none
      else
        some ({ s with
                  bitmap := s.bitmap |||
                    BitmappedStack.range_mask (s.allocBottom align)
                      (s.allocBottom align + s.chunks_for size),
                  current_height := s.allocBottom align + s.chunks_for size },
              s.chunk_to_ptr (s.allocBottom align)) := rfl

/-- Transport of `Reaches` along computed equalities of the state and the
live list. -/
theorem Reaches_cast (s s2 : BitmappedStack) (L L2 : List (Nat × Nat × Nat))
    (h : Reaches s L) (hs : s = s2) (hL : L = L2) : Reaches s2 L2 := hs ▸ hL ▸ h

/-- Transport of `MReach` along computed equalities of the state and the
live list. -/
theorem MReach_cast (s s2 : BitmappedStack) (L L2 : List (Nat × Nat))
    (h : MReach s L) (hs : s = s2) (hL : L = L2) : MReach s2 L2 := hs ▸ hL ▸ h

/-! ### The stack invariant: preservation lemmas -/

theorem StackInv_perm {s : BitmappedStack} {L L2 : List (Nat × Nat)}
    (h : StackInv s L) (hp : L.Perm L2) : StackInv s L2 := by
  refine ⟨h.chunk_pos, ?_, ?_, ?_, ?_, ?_⟩
  · intro e he
    exact h.ent e (hp.mem_iff.mpr he)
  · exact (hp.pairwise_iff (fun hab => Or.symm hab)).mp h.disj
  · intro i
    rw [h.bits i]
    constructor
    · rintro ⟨e, he, hc⟩
      exact ⟨e, hp.mem_iff.mp he, hc⟩
    · rintro ⟨e, he, hc⟩
      exact ⟨e, hp.mem_iff.mpr he, hc⟩
  · intro e he
    exact h.below e (hp.mem_iff.mpr he)
  · rcases h.top with h0 | ⟨e, he, heq⟩
    · exact Or.inl h0
    · exact Or.inr ⟨e, hp.mem_iff.mp he, heq⟩

theorem StackInv_init (base c : Nat) (hc : 0 < c) :
    StackInv (BitmappedStack.new base c) [] := by
  refine ⟨hc, ?_, List.Pairwise.nil, ?_, ?_, Or.inl rfl⟩
  · intro e he
    simp at he
  · intro i
    show (0 : Nat).testBit i = true ↔ _
    simp [Nat.zero_testBit]
  · intro e he
    simp at he

/-- `dealloc`, written out as a single conditional on whether the
deallocated range ends exactly at the current height. -/
theorem dealloc_eq (s : BitmappedStack) (p sz : Nat) :
    s.dealloc p sz =
      if s.current_height = s.ptr_to_chunk p + s.chunks_for sz then
        { s with
            bitmap := s.bitmap &&&
              (BitmappedStack.range_mask (s.ptr_to_chunk p)
                (s.ptr_to_chunk p + s.chunks_for sz) ^^^ (2 ^ 64 - 1)),
            current_height := 64 - leading_zeros (s.bitmap &&&
              (BitmappedStack.range_mask (s.ptr_to_chunk p)
                (s.ptr_to_chunk p + s.chunks_for sz) ^^^ (2 ^ 64 - 1))) }
      else
        { s with
            bitmap := s.bitmap &&&
              (BitmappedStack.range_mask (s.ptr_to_chunk p)
                (s.ptr_to_chunk p + s.chunks_for sz) ^^^ (2 ^ 64 - 1)) } := rfl

theorem dealloc_bottom (s : BitmappedStack) (p sz : Nat) :
    (s.dealloc p sz).bottom = s.bottom := by
  rw [dealloc_eq]
  split <;> rfl

theorem dealloc_chunk_size (s : BitmappedStack) (p sz : Nat) :
    (s.dealloc p sz).chunk_size = s.chunk_size := by
  rw [dealloc_eq]
  split <;> rfl

theorem StackInv_alloc {s : BitmappedStack} {L : List (Nat × Nat)} {s2 : BitmappedStack}
    {p : Nat} (size align k : Nat) (inv : StackInv s L) (hsize : 0 < size)
    (halign : align = 2 ^ k)
    (hover : s.bottom + s.current_height * s.chunk_size + align < 2 ^ 64)
    (hstep : s.alloc size align = some (s2, p)) :
    StackInv s2 ((p, size) :: L) := by
  subst halign
  rw [alloc_eq] at hstep
  by_cases hg : s.allocBottom (2 ^ k) * s.chunk_size + size > STACK_SIZE * s.chunk_size
  · rw [if_pos hg] at hstep
    exact absurd hstep (by simp)
  rw [if_neg hg] at hstep
  push_neg at hg
  rw [Option.some.injEq, Prod.mk.injEq] at hstep
  obtain ⟨hs2, hp⟩ := hstep
  subst hs2
  subst hp
  have hc0 : 0 < s.chunk_size := inv.chunk_pos
  have hSS : STACK_SIZE * s.chunk_size = 64 * s.chunk_size := rfl
  have hb_ge : s.current_height ≤ s.allocBottom (2 ^ k) := by
    have hRge := @round_up_ge (s.bottom + s.current_height * s.chunk_size) k hover
    show s.current_height ≤
      (round_up_to_alignment (s.bottom + s.current_height * s.chunk_size) (2 ^ k)
        - s.bottom) / s.chunk_size
    calc s.current_height
        = s.current_height * s.chunk_size / s.chunk_size :=
          (Nat.mul_div_cancel _ hc0).symm
      _ = (s.bottom + s.current_height * s.chunk_size - s.bottom) / s.chunk_size := by
          rw [Nat.add_sub_cancel_left]
      _ ≤ _ := Nat.div_le_div_right (by omega)
  have hn : 0 < s.chunks_for size := chunks_for_pos s hc0 hsize
  have hb64 : s.allocBottom (2 ^ k) < 64 := by
    by_contra h64
    push_neg at h64
    have h2 : 64 * s.chunk_size ≤ s.allocBottom (2 ^ k) * s.chunk_size :=
      Nat.mul_le_mul_right _ h64
    omega
  have hbound : s.allocBottom (2 ^ k) + s.chunks_for size ≤ 64 := by
    have hsz : size ≤ (64 - s.allocBottom (2 ^ k)) * s.chunk_size := by
      have h1 : (64 - s.allocBottom (2 ^ k)) * s.chunk_size
          = 64 * s.chunk_size - s.allocBottom (2 ^ k) * s.chunk_size := Nat.sub_mul _ _ _
      have h2 : s.allocBottom (2 ^ k) * s.chunk_size ≤ 64 * s.chunk_size :=
        Nat.mul_le_mul_right _ (le_of_lt hb64)
      omega
    have h3 := (chunks_for_le_iff s hc0 size (64 - s.allocBottom (2 ^ k))).mpr hsz
    omega
  have hstart : entryStart s.bottom s.chunk_size
      (s.chunk_to_ptr (s.allocBottom (2 ^ k)), size) = s.allocBottom (2 ^ k) := by
    show (s.bottom + s.allocBottom (2 ^ k) * s.chunk_size - s.bottom) / s.chunk_size = _
    rw [Nat.add_sub_cancel_left]
    exact Nat.mul_div_cancel _ hc0
  have hchunks : chunksFor s.chunk_size size = s.chunks_for size := rfl
  refine ⟨hc0, ?_, ?_, ?_, ?_, ?_⟩
  · intro e he
    rcases List.mem_cons.mp he with rfl | heL
    · constructor
      · show 0 < chunksFor s.chunk_size size
        rw [hchunks]
        exact hn
      · show entryStart s.bottom s.chunk_size _ + chunksFor s.chunk_size size ≤ 64
        rw [hstart, hchunks]
        exact hbound
    · exact inv.ent e heL
  · refine List.Pairwise.cons ?_ inv.disj
    intro e' he'
    right
    show entryStop s.bottom s.chunk_size e' ≤ entryStart s.bottom s.chunk_size _
    rw [hstart]
    exact le_trans (inv.below e' he') hb_ge
  · intro i
    show (s.bitmap |||
        BitmappedStack.range_mask (s.allocBottom (2 ^ k))
          (s.allocBottom (2 ^ k) + s.chunks_for size)).testBit i = true ↔ _
    rw [Nat.testBit_lor, Bool.or_eq_true, range_mask_testBit]
    simp only [Nat.add_sub_cancel_left, Bool.and_eq_true, decide_eq_true_eq]
    constructor
    · rintro (hbm | hM)
      · rcases (inv.bits i).mp hbm with ⟨e, he, hcov⟩
        exact ⟨e, List.mem_cons_of_mem _ he, hcov⟩
      · refine ⟨(s.chunk_to_ptr (s.allocBottom (2 ^ k)), size),
          List.mem_cons_self _ _, ?_, ?_⟩
        · rw [hstart]
          exact hM.1
        · rw [hstart, hchunks]
          exact hM.2
    · rintro ⟨e, he, hcov⟩
      rcases List.mem_cons.mp he with rfl | heL
      · right
        unfold maskCov at hcov
        rw [hstart, hchunks] at hcov
        exact ⟨hcov.1, hcov.2⟩
      · left
        exact (inv.bits i).mpr ⟨e, heL, hcov⟩
  · intro e he
    rcases List.mem_cons.mp he with rfl | heL
    · show entryStart s.bottom s.chunk_size _ + chunksFor s.chunk_size size ≤
        s.allocBottom (2 ^ k) + s.chunks_for size
      rw [hstart, hchunks]
    · show entryStop s.bottom s.chunk_size e ≤ s.allocBottom (2 ^ k) + s.chunks_for size
      exact le_trans (inv.below e heL) (le_trans hb_ge (Nat.le_add_right _ _))
  · refine Or.inr ⟨(s.chunk_to_ptr (s.allocBottom (2 ^ k)), size),
      List.mem_cons_self _ _, ?_⟩
    show entryStart s.bottom s.chunk_size _ + chunksFor s.chunk_size size =
      s.allocBottom (2 ^ k) + s.chunks_for size
    rw [hstart, hchunks]

theorem StackInv_dealloc {s : BitmappedStack} {e : Nat × Nat} {L : List (Nat × Nat)}
    (inv : StackInv s (e :: L)) : StackInv (s.dealloc e.1 e.2) L := by
  have hc0 : 0 < s.chunk_size := inv.chunk_pos
  have hente := inv.ent e (List.mem_cons_self _ _)
  have hpos_e : 0 < chunksFor s.chunk_size e.2 := hente.1
  have hstop_e : entryStop s.bottom s.chunk_size e ≤ 64 := hente.2
  have hrel : ∀ e' ∈ L,
      entryStop s.bottom s.chunk_size e ≤ entryStart s.bottom s.chunk_size e' ∨
      entryStop s.bottom s.chunk_size e' ≤ entryStart s.bottom s.chunk_size e :=
    (List.pairwise_cons.mp inv.disj).1
  have hdisjL := (List.pairwise_cons.mp inv.disj).2
  have hstart_eq : s.ptr_to_chunk e.1 = entryStart s.bottom s.chunk_size e := rfl
  have hchunks_eq : s.chunks_for e.2 = chunksFor s.chunk_size e.2 := rfl
  have hMlt : BitmappedStack.range_mask (s.ptr_to_chunk e.1)
      (s.ptr_to_chunk e.1 + s.chunks_for e.2) < 2 ^ 64 := by
    apply range_mask_lt
    rw [Nat.add_sub_cancel_left, hstart_eq, hchunks_eq]
    have hmod : chunksFor s.chunk_size e.2 % 64 ≤ chunksFor s.chunk_size e.2 :=
      Nat.mod_le _ _
    unfold entryStop at hstop_e
    omega
  have hbits2 : ∀ i,
      (s.bitmap &&& (BitmappedStack.range_mask (s.ptr_to_chunk e.1)
        (s.ptr_to_chunk e.1 + s.chunks_for e.2) ^^^ (2 ^ 64 - 1))).testBit i = true ↔
      ∃ e' ∈ L, maskCov s.bottom s.chunk_size e' i := by
    intro i
    rw [Nat.testBit_land, testBit_compl64 _ _ hMlt, range_mask_testBit,
      Nat.add_sub_cancel_left, hstart_eq, hchunks_eq]
    simp only [Bool.and_eq_true, decide_eq_true_eq, Bool.not_eq_true',
      Bool.and_eq_false_iff, decide_eq_false_iff_not]
    rw [inv.bits i]
    constructor
    · rintro ⟨⟨e', he', hcov⟩, hi64, hnc⟩
      rcases List.mem_cons.mp he' with rfl | heL
      · exfalso
        rcases hnc with hn1 | hn2
        · exact hn1 hcov.1
        · exact hn2 hcov.2
      · exact ⟨e', heL, hcov⟩
    · rintro ⟨e', he', hcov⟩
      have hcov1 : entryStart s.bottom s.chunk_size e' ≤ i := hcov.1
      have hcov2 : i < entryStart s.bottom s.chunk_size e'
          + chunksFor s.chunk_size e'.2 % 64 := hcov.2
      have hent' := inv.ent e' (List.mem_cons_of_mem _ he')
      have hstop' : entryStop s.bottom s.chunk_size e' ≤ 64 := hent'.2
      have hmod' : chunksFor s.chunk_size e'.2 % 64 ≤ chunksFor s.chunk_size e'.2 :=
        Nat.mod_le _ _
      unfold entryStop at hstop'
      refine ⟨⟨e', List.mem_cons_of_mem _ he', hcov⟩, ?_, ?_⟩
      · omega
      · have hmodE : chunksFor s.chunk_size e.2 % 64 ≤ chunksFor s.chunk_size e.2 :=
          Nat.mod_le _ _
        have hd := hrel e' he'
        unfold entryStop at hd
        by_cases hle : entryStart s.bottom s.chunk_size e ≤ i
        · right
          omega
        · exact Or.inl hle
  have hB2lt : (s.bitmap &&& (BitmappedStack.range_mask (s.ptr_to_chunk e.1)
      (s.ptr_to_chunk e.1 + s.chunks_for e.2) ^^^ (2 ^ 64 - 1))) < 2 ^ 64 := by
    apply lt_two_pow_of_high_bits
    intro i hi
    by_contra hb
    rw [Bool.not_eq_false] at hb
    rcases (hbits2 i).mp hb with ⟨e', he', hcov⟩
    have hent' := inv.ent e' (List.mem_cons_of_mem _ he')
    have hstop' : entryStop s.bottom s.chunk_size e' ≤ 64 := hent'.2
    have h2 : i < entryStart s.bottom s.chunk_size e'
        + chunksFor s.chunk_size e'.2 % 64 := hcov.2
    have hmod' : chunksFor s.chunk_size e'.2 % 64 ≤ chunksFor s.chunk_size e'.2 :=
      Nat.mod_le _ _
    unfold entryStop at hstop'
    omega
  rw [dealloc_eq]
  set B2 := s.bitmap &&& (BitmappedStack.range_mask (s.ptr_to_chunk e.1)
    (s.ptr_to_chunk e.1 + s.chunks_for e.2) ^^^ (2 ^ 64 - 1)) with hB2def
  by_cases hcond : s.current_height = s.ptr_to_chunk e.1 + s.chunks_for e.2
  · rw [if_pos hcond]
    have hH2 : 64 - leading_zeros B2 = bitLenF 64 B2 := by
      have h1 := bitLenF_le 64 B2
      unfold leading_zeros
      omega
    have hbelow2 : ∀ e' ∈ L, entryStop s.bottom s.chunk_size e' ≤ bitLenF 64 B2 := by
      intro e' he'
      have hent' := inv.ent e' (List.mem_cons_of_mem _ he')
      have hpos' : 0 < chunksFor s.chunk_size e'.2 := hent'.1
      have hstop' : entryStop s.bottom s.chunk_size e' ≤ 64 := hent'.2
      by_cases h64 : chunksFor s.chunk_size e'.2 = 64
      · exfalso
        have hd := hrel e' he'
        unfold entryStop at hd hstop' hstop_e
        omega
      · have hlt64 : chunksFor s.chunk_size e'.2 < 64 := by
          unfold entryStop at hstop'
          omega
        have hmodid : chunksFor s.chunk_size e'.2 % 64 = chunksFor s.chunk_size e'.2 :=
          Nat.mod_eq_of_lt hlt64
        have hbit : B2.testBit (entryStop s.bottom s.chunk_size e' - 1) = true := by
          apply (hbits2 _).mpr
          refine ⟨e', he', ?_, ?_⟩
          · unfold entryStop
            omega
          · unfold entryStop
            rw [hmodid]
            omega
        have hlt := testBit_lt_bitLenF 64 B2 (entryStop s.bottom s.chunk_size e' - 1)
          hB2lt hbit
        have hstp : 0 < entryStop s.bottom s.chunk_size e' := by
          unfold entryStop
          omega
        omega
    refine ⟨hc0, ?_, hdisjL, ?_, ?_, ?_⟩
    · intro e' he'
      exact inv.ent e' (List.mem_cons_of_mem _ he')
    · exact hbits2
    · intro e' he'
      show entryStop s.bottom s.chunk_size e' ≤ 64 - leading_zeros B2
      rw [hH2]
      exact hbelow2 e' he'
    · by_cases hB0 : B2 = 0
      · left
        show 64 - leading_zeros B2 = 0
        rw [hH2, hB0, bitLenF_zero]
      · right
        have hbit := testBit_bitLenF_pred 64 B2 hB0 hB2lt
        rcases (hbits2 _).mp hbit with ⟨e', he', hcov⟩
        have hb2 := hbelow2 e' he'
        have hc2 : bitLenF 64 B2 - 1 < entryStart s.bottom s.chunk_size e'
            + chunksFor s.chunk_size e'.2 % 64 := hcov.2
        have hmod' : chunksFor s.chunk_size e'.2 % 64 ≤ chunksFor s.chunk_size e'.2 :=
          Nat.mod_le _ _
        have hpos64 : 0 < bitLenF 64 B2 := bitLenF_pos 63 B2 hB0
        refine ⟨e', he', ?_⟩
        show entryStop s.bottom s.chunk_size e' = 64 - leading_zeros B2
        rw [hH2]
        unfold entryStop at hb2 ⊢
        omega
  · rw [if_neg hcond]
    refine ⟨hc0, ?_, hdisjL, ?_, ?_, ?_⟩
    · intro e' he'
      exact inv.ent e' (List.mem_cons_of_mem _ he')
    · exact hbits2
    · intro e' he'
      exact inv.below e' (List.mem_cons_of_mem _ he')
    · rcases inv.top with h0 | ⟨e'', he'', hst⟩
      · exact Or.inl h0
      · rcases List.mem_cons.mp he'' with rfl | heL
        · exfalso
          apply hcond
          rw [hstart_eq, hchunks_eq]
          unfold entryStop at hst
          omega
        · exact Or.inr ⟨e'', heL, hst⟩

theorem perm_cons_erase_mem {a : Nat × Nat} : ∀ {L : List (Nat × Nat)}, a ∈ L →
    L.Perm (a :: L.erase a) := by
  intro L
  induction L with
  | nil =>
    intro h
    cases h
  | cons b t ih =>
    intro h
    by_cases hba : b = a
    · subst hba
      rw [List.erase_cons_head]
    · have hat : a ∈ t := by
        rcases List.mem_cons.mp h with h1 | h2
        · exact absurd h1.symm hba
        · exact h2
      rw [List.erase_cons_tail (by simp [hba])]
      exact List.Perm.trans ((ih hat).cons b) (List.Perm.swap a b _)

theorem MReach_inv {s : BitmappedStack} {L : List (Nat × Nat)} (h : MReach s L) :
    StackInv s L := by
  induction h with
  | init base chunk hc => exact StackInv_init base chunk hc
  | alloc s L s2 p size align k h hsize halign hover hstep ih =>
    exact StackInv_alloc size align k ih hsize halign hover hstep
  | dealloc s L p size h hmem ih =>
    have hperm : L.Perm ((p, size) :: L.erase (p, size)) := perm_cons_erase_mem hmem
    have ih2 : StackInv s ((p, size) :: L.erase (p, size)) := StackInv_perm ih hperm
    exact @StackInv_dealloc s (p, size) (L.erase (p, size)) ih2

/-! ### The claims -/

/-- C1: size classification is a partition of the supported sizes into
the documented category table, in both `bucketed.rs` (`choose`) and
`factory_chain.rs` (`choose_fc`): size 0 and sizes above 262144 are
rejected, and every size in `1..=262144` is served by exactly one
category with the boundaries 8, 64, 512, 4096. -/
theorem c1_size_classification_partition (size : Nat) :
    (SizeCategory.choose size = none ↔ size = 0 ∨ 262144 < size)
  ∧ (SizeCategory.choose size = some .VerySmall ↔ 1 ≤ size ∧ size < 8)
  ∧ (SizeCategory.choose size = some .Small ↔ 8 ≤ size ∧ size < 64)
  ∧ (SizeCategory.choose size = some .Medium ↔ 64 ≤ size ∧ size < 512)
  ∧ (SizeCategory.choose size = some .Large ↔ 512 ≤ size ∧ size < 4096)
  ∧ (SizeCategory.choose size = some .VeryLarge ↔ 4096 ≤ size ∧ size ≤ 262144)
  ∧ SizeCategory.choose_fc size = SizeCategory.choose size := by
  unfold SizeCategory.choose SizeCategory.choose_fc
  split_ifs <;> simp_all <;> omega

/-- C2: on a fresh stack with 8-byte chunks, `alloc(size 512, align 1)`
succeeds — the request needs exactly 64 chunks, `bottom = 0`, and the
guard `0 * 8 + 512 > 64 * 8` is false — and returns the base pointer with
`current_height = 64`; but the resulting bitmap is 0, not all-ones: the
mask is built with `1u64.wrapping_shl(64).wrapping_sub(1) = 0`, so no bit
of the range `[0, 64)` is set. -/
theorem c2_alloc_full_stack_mask_bug :
    BitmappedStack.alloc ⟨8, 0, 8, 0⟩ 512 1 = some (⟨8, 64, 8, 0⟩, 8) ∧
    BitmappedStack.range_mask 0 64 = 0 := by
  constructor
  · rfl
  · rfl

/-- C3: a state violating invariant (b) — a bitmap bit at an index at or
above `current_height` is set — is reachable from a fresh stack by
successful operations respecting the live-allocation discipline.  The
trace (chunk size 8): alloc 512 (the 64-chunk wrapping-shift bug sets no
bits), shrink it to 8, alloc 8, dealloc it (the height collapses to 0
although the shrunk allocation is still live), alloc 512 again (again no
bits), shrink it to 16, then grow the first allocation from 8 to 24
bytes: the interior-grow path sets bits 1 and 2 while the height stays
2. -/
theorem c3_bits_above_height_violated :
    ∃ (s : BitmappedStack) (L : List (Nat × Nat × Nat)),
      Reaches s L ∧ s.current_height = 2 ∧ s.bitmap.testBit 2 = true := by
  have r0 : Reaches (BitmappedStack.new 8 8) [] := Reaches.init 8 8 (by decide)
  have r1 : Reaches ⟨8, 64, 8, 0⟩ [(8, 512, 1)] :=
    Reaches.alloc (BitmappedStack.new 8 8) [] ⟨8, 64, 8, 0⟩ 8 512 1 0 r0
      (by decide) (by decide) (by decide) (by decide)
  have r2 : Reaches ⟨8, 1, 8, 0⟩ [(8, 8, 1)] :=
    Reaches_cast _ _ _ _
      (Reaches.shrink ⟨8, 64, 8, 0⟩ [(8, 512, 1)] 8 512 1 8 r1 (by decide) (by decide)
        (by decide))
      (by decide) (by decide)
  have r3 : Reaches ⟨8, 2, 8, 2⟩ [(16, 8, 1), (8, 8, 1)] :=
    Reaches.alloc ⟨8, 1, 8, 0⟩ [(8, 8, 1)] ⟨8, 2, 8, 2⟩ 16 8 1 0 r2
      (by decide) (by decide) (by decide) (by decide)
  have r4 : Reaches ⟨8, 0, 8, 0⟩ [(8, 8, 1)] :=
    Reaches_cast _ _ _ _
      (Reaches.dealloc ⟨8, 2, 8, 2⟩ [(16, 8, 1), (8, 8, 1)] 16 8 1 r3 (by decide))
      (by decide) (by decide)
  have r5 : Reaches ⟨8, 64, 8, 0⟩ [(8, 512, 1), (8, 8, 1)] :=
    Reaches.alloc ⟨8, 0, 8, 0⟩ [(8, 8, 1)] ⟨8, 64, 8, 0⟩ 8 512 1 0 r4
      (by decide) (by decide) (by decide) (by decide)
  have r6 : Reaches ⟨8, 2, 8, 0⟩ [(8, 16, 1), (8, 8, 1)] :=
    Reaches_cast _ _ _ _
      (Reaches.shrink ⟨8, 64, 8, 0⟩ [(8, 512, 1), (8, 8, 1)] 8 512 1 16 r5 (by decide)
        (by decide) (by decide))
      (by decide) (by decide)
  have r7 : Reaches ⟨8, 2, 8, 6⟩ [(8, 24, 1), (8, 16, 1)] :=
    Reaches_cast _ _ _ _
      (Reaches.grow ⟨8, 2, 8, 0⟩ [(8, 16, 1), (8, 8, 1)] ⟨8, 2, 8, 6⟩ 8 8 1 24 r6
        (by decide) (by decide) (by decide))
      (by decide) (by decide)
  exact ⟨⟨8, 2, 8, 6⟩, [(8, 24, 1), (8, 16, 1)], r7, by decide, by decide⟩

/-- C6, counterexample: on a stack with base 4096 and 8-byte chunks, the
pointer 4601 lies strictly inside the half-open range
`[4096, 4096 + 64 * 8)` claimed by the spec, yet `owns` returns false
(the code accepts only pointers up to `base + 63 * chunk_size`). -/
theorem c6_counterexample :
    BitmappedStack.owns ⟨4096, 0, 8, 0⟩ 4601 = false ∧
    4096 ≤ 4601 ∧ 4601 < 4096 + 64 * 8 := by decide

/-- C6, amended: `owns` returns true exactly when the pointer lies in the
closed interval from the base up to the base of the last chunk,
`[base, base + 63 * chunk_size]` — which coincides with the claimed
half-open 64-chunk range only for 1-byte chunks. -/
theorem c6_owns_closed_interval (s : BitmappedStack) (p : Nat) :
    s.owns p = true ↔
      s.bottom ≤ p ∧ p ≤ s.bottom + (STACK_SIZE - 1) * s.chunk_size := by
  simp [BitmappedStack.owns, BitmappedStack.chunk_to_ptr, STACK_SIZE]

set_option maxRecDepth 10000 in
/-- C9: divergence between the two iterations of `extend_metadata` on the
bootstrap path (step 4 of §4.4).  From an empty bucket set with one
available block, the very-large extension inside the metadata extension
produces an unsaved very-large node; `bucketed.rs` stores its header and
installs it as the head of the very-large chain (chunk size 4096 in the
very-large bucket, as claimed), but `factory_chain.rs` installs it as the
head of the `large` chain — whose category chunk size is 512 — and
leaves the very-large bucket empty. -/
theorem c9_metadata_bootstrap_step4_divergence :
    (Buckets.factory_extend_metadata ⟨[], [], [], [], [], [], [1048576]⟩).2.large.head?.map
        (fun n => n.stack.chunk_size) = some 4096
  ∧ (Buckets.factory_extend_metadata ⟨[], [], [], [], [], [], [1048576]⟩).2.very_large = []
  ∧ (Buckets.extend_metadata ⟨[], [], [], [], [], [], [1048576]⟩).2.very_large.head?.map
        (fun n => n.stack.chunk_size) = some 4096
  ∧ (Buckets.extend_metadata ⟨[], [], [], [], [], [], [1048576]⟩).2.large = [] := by
  refine ⟨rfl, rfl, rfl, rfl⟩

set_option maxRecDepth 10000 in
/-- C5, counterexample: the matched sequence consisting of one allocation
of 9 bytes and its matching deallocation leaves a final state in which
the large chain (which still exists — it backs the small chain's stack)
has bitmap 1, not 0, and its cached largest-free count is 63, not 64. -/
theorem c5_counterexample :
    (Buckets.alloc ⟨[], [], [], [], [], [], [1048576]⟩ 9 1).1 = some 1052672
  ∧ (Buckets.dealloc FUEL (Buckets.alloc ⟨[], [], [], [], [], [], [1048576]⟩ 9 1).2
        1052672 9).large.map (fun n => (n.stack.bitmap, n.largestFree))
      = [(1, 63)] := by
  refine ⟨rfl, rfl⟩

set_option maxRecDepth 10000 in
/-- C8, counterexample: a chain state on which `extend_very_small` fails
in a sub-allocation yet mutates the chain head.  The medium chain can
serve the parent allocation, but the metadata chain is full, the
very-large chain is full and the source is exhausted, so storing the new
header fails — and the very-small bucket, whose head was taken, is left
empty instead of holding its previous one-node chain. -/
theorem c8_counterexample :
    (Buckets.extend_very_small
        ⟨[⟨0, ⟨8388608, 0, 1, 0⟩, 64⟩], [], [⟨0, ⟨2097152, 0, 64, 0⟩, 64⟩],
         [⟨0, ⟨4194304, 64, 64, 2 ^ 64 - 1⟩, 0⟩], [],
         [⟨0, ⟨16777216, 64, 4096, 2 ^ 64 - 1⟩, 0⟩], []⟩).1 = false
  ∧ (Buckets.extend_very_small
        ⟨[⟨0, ⟨8388608, 0, 1, 0⟩, 64⟩], [], [⟨0, ⟨2097152, 0, 64, 0⟩, 64⟩],
         [⟨0, ⟨4194304, 64, 64, 2 ^ 64 - 1⟩, 0⟩], [],
         [⟨0, ⟨16777216, 64, 4096, 2 ^ 64 - 1⟩, 0⟩], []⟩).2.very_small = []
  ∧ ([⟨0, ⟨8388608, 0, 1, 0⟩, 64⟩] : List Node) ≠ [] := by
  refine ⟨rfl, rfl, by decide⟩

/-- A chain deallocation that reaches a non-head node and empties it
splices that node out and returns its header as `freeNode`; the spliced
chain is one node shorter. -/
theorem chainDealloc_splice (pre : List Node) : ∀ (n : Node) (suf : List Node) (p sz : Nat),
    pre ≠ [] → (∀ m ∈ pre, m.stack.owns p = false) → n.stack.owns p = true →
    (n.stack.dealloc p sz).bitmap = 0 →
    chainDealloc (pre ++ n :: suf) p sz =
      (pre ++ suf, DeallocResponse.freeNode { n with stack := n.stack.dealloc p sz }) := by
  induction pre with
  | nil => intro n suf p sz h; exact absurd rfl h
  | cons m pre2 ih =>
    intro n suf p sz hne hno hown hbm
    have hm : m.stack.owns p = false := hno m (by simp)
    by_cases hpre2 : pre2 = []
    · subst hpre2
      simp [chainDealloc, hm, hown, hbm]
    · have hrec := ih n suf p sz hpre2 (fun x hx => hno x (by simp [hx])) hown hbm
      simp [chainDealloc, hm, hrec]

/-- A chain deallocation changes the chain length exactly when it returns
a `freeNode` token, and then by exactly one node. -/
theorem chainDealloc_length (chain : List Node) (p sz : Nat) :
    ((chainDealloc chain p sz).1.length = chain.length ∧
      ∀ hdr, (chainDealloc chain p sz).2 ≠ DeallocResponse.freeNode hdr)
    ∨ (∃ hdr, (chainDealloc chain p sz).2 = DeallocResponse.freeNode hdr ∧
        (chainDealloc chain p sz).1.length + 1 = chain.length) := by
  induction chain with
  | nil => left; exact ⟨rfl, fun hdr => by simp [chainDealloc]⟩
  | cons n rest ih =>
    by_cases hown : n.stack.owns p = true
    · left
      constructor
      · simp only [chainDealloc, hown, if_true]
        split <;> simp
      · intro hdr
        simp only [chainDealloc, hown, if_true]
        split <;> simp
    · have hown2 : n.stack.owns p = false := by
        cases h : n.stack.owns p
        · rfl
        · exact absurd h hown
      rcases hE : chainDealloc rest p sz with ⟨rest2, r⟩
      rw [hE] at ih
      cases r with
      | noAction =>
        left
        rcases ih with ⟨hlen, _⟩ | ⟨hdr, habs, _⟩
        · constructor
          · simp [chainDealloc, hown2, hE, hlen]
          · intro hdr; simp [chainDealloc, hown2, hE]
        · exact absurd habs (by simp)
      | collapse =>
        rcases ih with ⟨hlen, _⟩ | ⟨hdr, habs, _⟩
        · cases rest2 with
          | nil =>
            left
            constructor
            · simp [chainDealloc, hown2, hE, ← hlen]
            · intro hdr; simp [chainDealloc, hown2, hE]
          | cons collapsed rest3 =>
            right
            refine ⟨collapsed, ?_, ?_⟩
            · simp [chainDealloc, hown2, hE]
            · simp only [chainDealloc, hown2, if_false, hE]
              simp only [List.length_cons] at hlen
              simp [← hlen]
        · exact absurd habs (by simp)
      | freeNode hdr =>
        right
        rcases ih with ⟨_, hne⟩ | ⟨hdr2, heq, hlen⟩
        · exact absurd rfl (hne hdr)
        · refine ⟨hdr, by simp [chainDealloc, hown2, hE], ?_⟩
          have h2 : hdr = hdr2 := by simpa using heq
          subst h2
          simp only [chainDealloc, hown2, hE]
          simp at hlen ⊢
          omega

/-- The router's deallocation on a `freeNode` response
(`BucketedAllocator::dealloc`, the `if let DeallocResponse::FreeAllocator`
branch): when the owning chain — selected by the size category of the
freed layout — splices out an emptied non-head node, `Buckets.dealloc`,
within that same call, re-enters itself on the node's full stack memory
(the stack's base address, size `chunk_size * STACK_SIZE`, which the
recursive call routes by `SizeCategory.choose` to the stack's parent
category) and then deallocates the node's header from the metadata
chain. -/
theorem Buckets_dealloc_freeNode (fuel : Nat) (s : Buckets) (cat : SizeCategory)
    (p sz : Nat) (pre suf : List Node) (n : Node)
    (hsz : sz ≠ 0) (hcat : SizeCategory.choose sz = some cat)
    (hbucket : s.bucket cat = pre ++ n :: suf)
    (hpre : pre ≠ []) (hno : ∀ m ∈ pre, m.stack.owns p = false)
    (hown : n.stack.owns p = true) (hempty : (n.stack.dealloc p sz).bitmap = 0) :
    Buckets.dealloc (fuel + 1) s p sz =
      { Buckets.dealloc fuel (s.setBucket cat (pre ++ suf)) n.stack.bottom
          (n.stack.chunk_size * STACK_SIZE) with
        metadata := (chainDealloc
          (Buckets.dealloc fuel (s.setBucket cat (pre ++ suf)) n.stack.bottom
            (n.stack.chunk_size * STACK_SIZE)).metadata
          n.headerAddr HEADER_SIZE).1 } := by
  have hs := chainDealloc_splice pre n suf p sz hpre hno hown hempty
  have hb1 := dealloc_bottom n.stack p sz
  have hb2 := dealloc_chunk_size n.stack p sz
  simp only [Buckets.dealloc, if_neg hsz, hcat, hbucket, hs, hb1, hb2]

/-- C4: collapse fires exactly when a deallocation empties a non-head
node's local bitmap.  First part: if the pointer is owned by a non-head
node `n` of the chain and deallocating from `n`'s stack zeroes its
bitmap, the chain deallocation removes exactly `n` (splicing its backup
into its parent's link) and hands `n`'s header back as the `freeNode`
token.  Second part: conversely, any chain deallocation that does not
produce a `freeNode` token leaves the chain length unchanged, so the
length strictly decreases (by exactly one) precisely when collapse
fires.  Third part: the router (`Buckets.dealloc`) completes the
collapse within that same deallocation — when the owning chain splices
out the emptied node, the same call re-enters the router on the node's
stack memory (its base address, full size `chunk_size * STACK_SIZE`) and
deallocates the node's header from the metadata chain.  Fourth part: the
recursive call's size routes each chain's stack to its parent category
(`SizeCategory.choose` of `chunk_size * STACK_SIZE`): very-small stacks
(64 bytes) to Medium, small stacks (512 bytes) to Large, and medium,
large, very-large and metadata stacks to VeryLarge. -/
theorem c4_collapse_fires_exactly_on_empty :
    (∀ (pre : List Node) (n : Node) (suf : List Node) (p sz : Nat),
      pre ≠ [] → (∀ m ∈ pre, m.stack.owns p = false) → n.stack.owns p = true →
      (n.stack.dealloc p sz).bitmap = 0 →
      chainDealloc (pre ++ n :: suf) p sz =
        (pre ++ suf, DeallocResponse.freeNode { n with stack := n.stack.dealloc p sz }) ∧
      (chainDealloc (pre ++ n :: suf) p sz).1.length + 1 = (pre ++ n :: suf).length)
  ∧ (∀ (chain : List Node) (p sz : Nat),
      ((chainDealloc chain p sz).1.length = chain.length ∧
        ∀ hdr, (chainDealloc chain p sz).2 ≠ DeallocResponse.freeNode hdr)
      ∨ (∃ hdr, (chainDealloc chain p sz).2 = DeallocResponse.freeNode hdr ∧
          (chainDealloc chain p sz).1.length + 1 = chain.length))
  ∧ (∀ (fuel : Nat) (s : Buckets) (cat : SizeCategory) (p sz : Nat)
      (pre suf : List Node) (n : Node),
      sz ≠ 0 → SizeCategory.choose sz = some cat →
      s.bucket cat = pre ++ n :: suf →
      pre ≠ [] → (∀ m ∈ pre, m.stack.owns p = false) → n.stack.owns p = true →
      (n.stack.dealloc p sz).bitmap = 0 →
      Buckets.dealloc (fuel + 1) s p sz =
        { Buckets.dealloc fuel (s.setBucket cat (pre ++ suf)) n.stack.bottom
            (n.stack.chunk_size * STACK_SIZE) with
          metadata := (chainDealloc
            (Buckets.dealloc fuel (s.setBucket cat (pre ++ suf)) n.stack.bottom
              (n.stack.chunk_size * STACK_SIZE)).metadata
            n.headerAddr HEADER_SIZE).1 })
  ∧ (SizeCategory.choose (VERY_SMALL_CHUNK_SIZE * STACK_SIZE) = some SizeCategory.Medium
     ∧ SizeCategory.choose (SMALL_CHUNK_SIZE * STACK_SIZE) = some SizeCategory.Large
     ∧ SizeCategory.choose (MEDIUM_CHUNK_SIZE * STACK_SIZE) = some SizeCategory.VeryLarge
     ∧ SizeCategory.choose (LARGE_CHUNK_SIZE * STACK_SIZE) = some SizeCategory.VeryLarge
     ∧ SizeCategory.choose (VERY_LARGE_CHUNK_SIZE * STACK_SIZE) = some SizeCategory.VeryLarge
     ∧ SizeCategory.choose (METADATA_CHUNK_SIZE * STACK_SIZE) = some SizeCategory.VeryLarge) := by
  refine ⟨?_, chainDealloc_length, Buckets_dealloc_freeNode, by decide⟩
  intro pre n suf p sz h1 h2 h3 h4
  have hs := chainDealloc_splice pre n suf p sz h1 h2 h3 h4
  refine ⟨hs, ?_⟩
  rw [hs]
  simp only [List.length_append, List.length_cons]
  omega

set_option maxRecDepth 10000 in
/-- Witness for C4.  First conjunct: on a concrete two-node chain the
pointer 20000 is owned by the backup node, whose single allocated chunk
is freed, so the deallocation returns `freeNode` with that node (bitmap
emptied, height 0) and the chain shrinks to the head alone.  Second
conjunct, end to end through the router: freeing the last small
allocation (8 bytes at 20000) splices the emptied node out of the small
chain, frees its 512-byte stack memory back in the parent large chain
(chunk bit 7 of the large node is cleared and its height drops to 1) and
frees its 64-byte header slot in the metadata chain (the metadata stack
empties) — all within the one `Buckets.dealloc` call. -/
theorem c4_witness :
    chainDealloc [⟨0, ⟨10000, 1, 8, 1⟩, 63⟩, ⟨0, ⟨20000, 1, 8, 1⟩, 63⟩] 20000 8
      = ([⟨0, ⟨10000, 1, 8, 1⟩, 63⟩],
          DeallocResponse.freeNode ⟨0, ⟨20000, 0, 8, 0⟩, 63⟩)
  ∧ Buckets.dealloc 8
      ⟨[], [⟨0, ⟨40000, 1, 8, 1⟩, 63⟩, ⟨30000, ⟨20000, 1, 8, 1⟩, 63⟩], [],
       [⟨0, ⟨30000, 1, 64, 1⟩, 63⟩], [⟨0, ⟨16416, 8, 512, 129⟩, 56⟩], [], []⟩ 20000 8
    = ⟨[], [⟨0, ⟨40000, 1, 8, 1⟩, 63⟩], [],
       [⟨0, ⟨30000, 0, 64, 0⟩, 63⟩], [⟨0, ⟨16416, 1, 512, 1⟩, 56⟩], [], []⟩ := by
  constructor
  · exact (c4_collapse_fires_exactly_on_empty.1 [⟨0, ⟨10000, 1, 8, 1⟩, 63⟩]
      ⟨0, ⟨20000, 1, 8, 1⟩, 63⟩ [] 20000 8 (by decide) (by decide) (by decide)
      (by decide)).1
  · have h := c4_collapse_fires_exactly_on_empty.2.2.1 7
      ⟨[], [⟨0, ⟨40000, 1, 8, 1⟩, 63⟩, ⟨30000, ⟨20000, 1, 8, 1⟩, 63⟩], [],
       [⟨0, ⟨30000, 1, 64, 1⟩, 63⟩], [⟨0, ⟨16416, 8, 512, 129⟩, 56⟩], [], []⟩
      SizeCategory.Small 20000 8 [⟨0, ⟨40000, 1, 8, 1⟩, 63⟩] []
      ⟨30000, ⟨20000, 1, 8, 1⟩, 63⟩ (by decide) (by decide) rfl (by decide)
      (by decide) (by decide) (by decide)
    exact h.trans (by decide)

/-- `get_block` does not touch the very-small bucket. -/
theorem get_block_very_small (s : Buckets) : (s.get_block).2.very_small = s.very_small := by
  unfold Buckets.get_block
  cases hs : s.source <;> simp

/-- `extend_very_large` does not touch the very-small bucket. -/
theorem extend_very_large_very_small (s : Buckets) :
    (Buckets.extend_very_large s).2.very_small = s.very_small := by
  unfold Buckets.extend_very_large
  rcases hgb : s.get_block with ⟨o, s1⟩
  have h1 : s1.very_small = s.very_small := by
    have := get_block_very_small s; rw [hgb] at this; exact this
  rcases o with _ | memory
  · simpa using h1
  · simp only []
    repeat' split
    all_goals simpa using h1

/-- `get_very_large` does not touch the very-small bucket. -/
theorem get_very_large_very_small (s : Buckets) :
    (Buckets.get_very_large s).2.very_small = s.very_small := by
  unfold Buckets.get_very_large
  rcases hvl : s.very_large with _ | ⟨n, rest⟩
  · exact extend_very_large_very_small s
  · rfl

/-- `alloc_very_large` does not touch the very-small bucket. -/
theorem alloc_very_large_very_small (s : Buckets) (size align : Nat) :
    (Buckets.alloc_very_large s size align).2.very_small = s.very_small := by
  unfold Buckets.alloc_very_large
  rcases hst : Buckets.get_very_large s with ⟨ok, s1⟩
  have h1 : s1.very_small = s.very_small := by
    have := get_very_large_very_small s; rw [hst] at this; exact this
  rcases ok with _ | _
  · simpa using h1
  · simp only []
    rcases hca : chainAlloc s1.very_large size align with _ | ⟨c2, p⟩
    · rcases hev : Buckets.extend_very_large s1 with ⟨ok2, s2⟩
      have h2 : s2.very_small = s1.very_small := by
        have := extend_very_large_very_small s1; rw [hev] at this; exact this
      rcases ok2 with _ | _
      · simpa using h2.trans h1
      · simp only []
        rcases hca2 : chainAlloc s2.very_large size align with _ | ⟨c3, p2⟩
        · simpa using h2.trans h1
        · simpa using h2.trans h1
    · simpa using h1

/-- `alloc_very_large_no_metadata` does not touch the very-small
bucket. -/
theorem alloc_very_large_no_metadata_very_small (s : Buckets) (size align : Nat) :
    (Buckets.alloc_very_large_no_metadata s size align).2.very_small = s.very_small := by
  unfold Buckets.alloc_very_large_no_metadata
  rcases hvl : s.very_large with _ | ⟨n, rest⟩
  · rcases hgb : s.get_block with ⟨o, s1⟩
    have h1 : s1.very_small = s.very_small := by
      have := get_block_very_small s; rw [hgb] at this; exact this
    rcases o with _ | memory
    · simpa using h1
    · simp only []
      split <;> simpa using h1
  · simp only []
    rcases hca : chainAlloc (n :: rest) size align with _ | ⟨c2, p⟩
    · simp only [hca]
      rcases hgb : s.get_block with ⟨o, s1⟩
      have h1 : s1.very_small = s.very_small := by
        have := get_block_very_small s; rw [hgb] at this; exact this
      rcases o with _ | memory
      · simpa using h1
      · simp only []
        split <;> simpa using h1
    · simp [hca]

/-- `extend_metadata` does not touch the very-small bucket. -/
theorem extend_metadata_very_small (s : Buckets) :
    (Buckets.extend_metadata s).2.very_small = s.very_small := by
  unfold Buckets.extend_metadata
  rcases hnm : Buckets.alloc_very_large_no_metadata s
      (METADATA_CHUNK_SIZE * STACK_SIZE) METADATA_CHUNK_SIZE with ⟨o, s1⟩
  have h1 : s1.very_small = s.very_small := by
    have := alloc_very_large_no_metadata_very_small s
      (METADATA_CHUNK_SIZE * STACK_SIZE) METADATA_CHUNK_SIZE
    rw [hnm] at this; exact this
  rcases o with _ | ⟨memory, more⟩
  · simpa using h1
  · simp only []
    rcases more with _ | vl
    · simp only []
      split <;> simpa using h1
    · simp only []
      repeat' split
      all_goals simpa using h1

/-- `get_metadata` does not touch the very-small bucket. -/
theorem get_metadata_very_small (s : Buckets) :
    (Buckets.get_metadata s).2.very_small = s.very_small := by
  unfold Buckets.get_metadata
  rcases hmd : s.metadata with _ | ⟨n, rest⟩
  · exact extend_metadata_very_small s
  · rfl

/-- `alloc_metadata` does not touch the very-small bucket. -/
theorem alloc_metadata_very_small (s : Buckets) (size align : Nat) :
    (Buckets.alloc_metadata s size align).2.very_small = s.very_small := by
  unfold Buckets.alloc_metadata
  rcases hst : Buckets.get_metadata s with ⟨ok, s1⟩
  have h1 : s1.very_small = s.very_small := by
    have := get_metadata_very_small s; rw [hst] at this; exact this
  rcases ok with _ | _
  · simpa using h1
  · simp only []
    rcases hca : chainAlloc s1.metadata size align with _ | ⟨c2, p⟩
    · rcases hem : Buckets.extend_metadata s1 with ⟨ok2, s2⟩
      have h2 : s2.very_small = s1.very_small := by
        have := extend_metadata_very_small s1; rw [hem] at this; exact this
      rcases ok2 with _ | _
      · simpa using h2.trans h1
      · simp only []
        rcases hca2 : chainAlloc s2.metadata size align with _ | ⟨c3, p2⟩
        · simpa using h2.trans h1
        · simpa using h2.trans h1
    · simpa using h1

/-- `store_metadata` does not touch the very-small bucket. -/
theorem store_metadata_very_small (s : Buckets) (n : Node) :
    (Buckets.store_metadata s n).2.very_small = s.very_small := by
  unfold Buckets.store_metadata
  rcases ham : Buckets.alloc_metadata s HEADER_SIZE HEADER_ALIGN with ⟨o, s1⟩
  have h1 : s1.very_small = s.very_small := by
    have := alloc_metadata_very_small s HEADER_SIZE HEADER_ALIGN
    rw [ham] at this; exact this
  rcases o with _ | p <;> simpa using h1

/-- `extend_medium` does not touch the very-small bucket. -/
theorem extend_medium_very_small (s : Buckets) :
    (Buckets.extend_medium s).2.very_small = s.very_small := by
  unfold Buckets.extend_medium
  rcases hvl : Buckets.alloc_very_large s (MEDIUM_CHUNK_SIZE * STACK_SIZE)
      MEDIUM_CHUNK_SIZE with ⟨o, s1⟩
  have h1 : s1.very_small = s.very_small := by
    have := alloc_very_large_very_small s (MEDIUM_CHUNK_SIZE * STACK_SIZE) MEDIUM_CHUNK_SIZE
    rw [hvl] at this; exact this
  rcases o with _ | memory
  · simpa using h1
  · simp only []
    rcases hsm : Buckets.store_metadata { s1 with medium := [] }
        (Node.fresh memory MEDIUM_CHUNK_SIZE) with ⟨ob, s3⟩
    have h3 : s3.very_small = s1.very_small := by
      have := store_metadata_very_small { s1 with medium := [] }
        (Node.fresh memory MEDIUM_CHUNK_SIZE)
      rw [hsm] at this; exact this
    rcases ob with _ | boxed <;> simpa using h3.trans h1

/-- `get_medium` does not touch the very-small bucket. -/
theorem get_medium_very_small (s : Buckets) :
    (Buckets.get_medium s).2.very_small = s.very_small := by
  unfold Buckets.get_medium
  rcases hmd : s.medium with _ | ⟨n, rest⟩
  · exact extend_medium_very_small s
  · rfl

/-- `alloc_medium` does not touch the very-small bucket. -/
theorem alloc_medium_very_small (s : Buckets) (size align : Nat) :
    (Buckets.alloc_medium s size align).2.very_small = s.very_small := by
  unfold Buckets.alloc_medium
  rcases hst : Buckets.get_medium s with ⟨ok, s1⟩
  have h1 : s1.very_small = s.very_small := by
    have := get_medium_very_small s; rw [hst] at this; exact this
  rcases ok with _ | _
  · simpa using h1
  · simp only []
    rcases hca : chainAlloc s1.medium size align with _ | ⟨c2, p⟩
    · rcases hem : Buckets.extend_medium s1 with ⟨ok2, s2⟩
      have h2 : s2.very_small = s1.very_small := by
        have := extend_medium_very_small s1; rw [hem] at this; exact this
      rcases ok2 with _ | _
      · simpa using h2.trans h1
      · simp only []
        rcases hca2 : chainAlloc s2.medium size align with _ | ⟨c3, p2⟩
        · simpa using h2.trans h1
        · simpa using h2.trans h1
    · simpa using h1

/-- C8, amended: `extend_very_small` is atomic on failure of its first
sub-allocation: when the parent-category (medium) allocation fails, it
returns an error without mutating the very-small chain head.  (When the
parent allocation succeeds and the later metadata-chain allocation for
the header fails, the head is not preserved: the former chain has already
been taken and is dropped — the FIXME'd partial chain loss shown by the
counterexample.)  The caller surfaces out-of-memory in both cases. -/
theorem c8_extend_atomic_on_parent_failure (s : Buckets)
    (h : (Buckets.alloc_medium s (VERY_SMALL_CHUNK_SIZE * STACK_SIZE)
            VERY_SMALL_CHUNK_SIZE).1 = none) :
    (Buckets.extend_very_small s).1 = false ∧
    (Buckets.extend_very_small s).2.very_small = s.very_small := by
  unfold Buckets.extend_very_small
  rcases ham : Buckets.alloc_medium s (VERY_SMALL_CHUNK_SIZE * STACK_SIZE)
      VERY_SMALL_CHUNK_SIZE with ⟨o, s1⟩
  have h1 : s1.very_small = s.very_small := by
    have := alloc_medium_very_small s (VERY_SMALL_CHUNK_SIZE * STACK_SIZE)
      VERY_SMALL_CHUNK_SIZE
    rw [ham] at this; exact this
  rw [ham] at h
  simp at h
  subst h
  simpa using h1

/-- Witness for C8 on a concrete state: with an empty source and only the
very-small bucket populated, the medium allocation fails (nothing can be
extended), and the failed extension leaves the very-small head
untouched. -/
theorem c8_witness :
    (Buckets.alloc_medium ⟨[⟨0, ⟨8388608, 0, 1, 0⟩, 64⟩], [], [], [], [], [], []⟩
        (VERY_SMALL_CHUNK_SIZE * STACK_SIZE) VERY_SMALL_CHUNK_SIZE).1 = none
  ∧ (Buckets.extend_very_small
        ⟨[⟨0, ⟨8388608, 0, 1, 0⟩, 64⟩], [], [], [], [], [], []⟩).1 = false
  ∧ (Buckets.extend_very_small
        ⟨[⟨0, ⟨8388608, 0, 1, 0⟩, 64⟩], [], [], [], [], [], []⟩).2.very_small
      = [⟨0, ⟨8388608, 0, 1, 0⟩, 64⟩] := by
  have h := c8_extend_atomic_on_parent_failure
    ⟨[⟨0, ⟨8388608, 0, 1, 0⟩, 64⟩], [], [], [], [], [], []⟩ (by rfl)
  exact ⟨by rfl, h.1, h.2⟩

/-- `realloc`, written out with the fallback inlined at both of its
fall-through points. -/
theorem realloc_eq (s : Buckets) (ptr size new_size align : Nat) :
    Buckets.realloc s ptr size new_size align =
      if SizeCategory.choose size = SizeCategory.choose new_size then
        match SizeCategory.choose size with
        | none => { result := none, state := s, copied := false, freedOld := false }
        | some cat =>
          match s.bucket cat with
          | [] => { result := none, state := s, copied := false, freedOld := false }
          | _ :: _ =>
            if new_size ≤ size then
              { result := some ptr,
                state := s.setBucket cat (chainShrink (s.bucket cat) ptr size new_size),
                copied := false, freedOld := false }
            else
              match chainGrow (s.bucket cat) ptr size new_size with
              | some c2 =>
                { result := some ptr, state := s.setBucket cat c2,
                  copied := false, freedOld := false }
              | none =>
                match Buckets.alloc s new_size align with
                | (some new_mem, s1) =>
                  { result := some new_mem, state := Buckets.dealloc FUEL s1 ptr size,
                    copied := true, freedOld := true }
                | (none, s1) =>
                  { result := none, state := s1, copied := false, freedOld := false }
      else
        match Buckets.alloc s new_size align with
        | (some new_mem, s1) =>
          { result := some new_mem, state := Buckets.dealloc FUEL s1 ptr size,
            copied := true, freedOld := true }
        | (none, s1) =>
          { result := none, state := s1, copied := false, freedOld := false } := rfl

/-- C10: `realloc` is atomic on failure of its copy-fallback path.  When
the in-place path does not apply (the size category changes) or fails
(same category, a true grow, and the owning chain's grow-in-place
refuses) and the fresh allocation of the new size fails, `realloc`
returns an error, performs no byte copy, does not deallocate the
original allocation (so the old chunks stay marked and the old contents
are untouched — bitmap bits are only cleared by a deallocation), and its
final state is exactly the state left by the failed allocation
attempt. -/
theorem c10_realloc_fallback_atomic (s : Buckets) (ptr size new_size align : Nat)
    (hinplace :
      SizeCategory.choose size ≠ SizeCategory.choose new_size ∨
      (size < new_size ∧
        ∃ cat, SizeCategory.choose size = some cat ∧ s.bucket cat ≠ [] ∧
          chainGrow (s.bucket cat) ptr size new_size = none))
    (halloc : (Buckets.alloc s new_size align).1 = none) :
    (Buckets.realloc s ptr size new_size align).result = none ∧
    (Buckets.realloc s ptr size new_size align).copied = false ∧
    (Buckets.realloc s ptr size new_size align).freedOld = false ∧
    (Buckets.realloc s ptr size new_size align).state = (Buckets.alloc s new_size align).2 := by
  rw [realloc_eq]
  rcases hal : Buckets.alloc s new_size align with ⟨o, s1⟩
  rw [hal] at halloc
  simp only [] at halloc
  subst halloc
  by_cases hsame : SizeCategory.choose size = SizeCategory.choose new_size
  · rcases hinplace with hne | ⟨hlt, cat, hcat, hbucket, hgrow⟩
    · exact absurd hsame hne
    · rw [if_pos hsame, hcat]
      rcases hb : s.bucket cat with _ | ⟨n0, rest⟩
      · exact absurd hb hbucket
      · rw [hb] at hgrow
        simp [hb, hgrow, show ¬ new_size ≤ size by omega]
  · rw [if_neg hsame]
    exact ⟨rfl, rfl, rfl, rfl⟩

/-- Witness for C10 on a concrete state: one live 9-byte allocation in
the small chain, empty source; reallocating it to 100 bytes changes the
size category, and the fresh medium allocation fails, so the realloc
errors out with no copy and no deallocation of the original. -/
theorem c10_witness :
    (Buckets.alloc ⟨[], [⟨0, ⟨524288, 2, 8, 3⟩, 62⟩], [], [], [], [], []⟩ 100 1).1 = none
  ∧ (Buckets.realloc ⟨[], [⟨0, ⟨524288, 2, 8, 3⟩, 62⟩], [], [], [], [], []⟩
        524288 9 100 1).result = none
  ∧ (Buckets.realloc ⟨[], [⟨0, ⟨524288, 2, 8, 3⟩, 62⟩], [], [], [], [], []⟩
        524288 9 100 1).copied = false
  ∧ (Buckets.realloc ⟨[], [⟨0, ⟨524288, 2, 8, 3⟩, 62⟩], [], [], [], [], []⟩
        524288 9 100 1).freedOld = false := by
  have h := c10_realloc_fallback_atomic ⟨[], [⟨0, ⟨524288, 2, 8, 3⟩, 62⟩], [], [], [], [], []⟩
    524288 9 100 1 (Or.inl (by decide)) (by rfl)
  exact ⟨by rfl, h.1, h.2.1, h.2.2.1⟩

/-- C7: every successful `alloc` on a stack whose chunk size is a power
of two, with a power-of-two alignment to which the stack's base is itself
aligned (and with no address overflow), returns a pointer that satisfies
the requested alignment and whose entire `[ptr, ptr + size)` range lies
inside the serving stack's 64-chunk region. -/
theorem c7_alloc_aligned_in_stack (s : BitmappedStack) (size align j k : Nat)
    (s2 : BitmappedStack) (p : Nat)
    (hc : s.chunk_size = 2 ^ j) (ha : align = 2 ^ k)
    (hbase : s.bottom % align = 0)
    (hover : s.chunk_to_ptr s.current_height + align < 2 ^ 64)
    (hstep : s.alloc size align = some (s2, p)) :
    p % align = 0 ∧ s.bottom ≤ p ∧ p + size ≤ s.bottom + STACK_SIZE * s.chunk_size := by
  subst ha
  rw [alloc_eq] at hstep
  by_cases hg : s.allocBottom (2 ^ k) * s.chunk_size + size > STACK_SIZE * s.chunk_size
  · rw [if_pos hg] at hstep
    exact absurd hstep (by simp)
  · rw [if_neg hg] at hstep
    push_neg at hg
    rw [Option.some.injEq] at hstep
    have hp : s.chunk_to_ptr (s.allocBottom (2 ^ k)) = p := congrArg Prod.snd hstep
    have hpsum : p = s.bottom + s.allocBottom (2 ^ k) * s.chunk_size := by
      rw [← hp]; rfl
    have hcpos : 0 < s.chunk_size := by
      rw [hc]; exact Nat.pos_pow_of_pos _ (by norm_num)
    have hkpos : 0 < (2 : Nat) ^ k := Nat.pos_pow_of_pos _ (by norm_num)
    have hover2 : s.bottom + s.current_height * s.chunk_size + 2 ^ k < 2 ^ 64 := by
      have hcp : s.chunk_to_ptr s.current_height
          = s.bottom + s.current_height * s.chunk_size := rfl
      omega
    have hRge : s.bottom + s.current_height * s.chunk_size ≤
        round_up_to_alignment (s.bottom + s.current_height * s.chunk_size) (2 ^ k) :=
      round_up_ge hover2
    have hRmod : round_up_to_alignment (s.bottom + s.current_height * s.chunk_size) (2 ^ k)
        % 2 ^ k = 0 := round_up_mod hover2
    have hbot : s.allocBottom (2 ^ k) =
        (round_up_to_alignment (s.bottom + s.current_height * s.chunk_size) (2 ^ k)
          - s.bottom) / s.chunk_size := rfl
    have halign : p % 2 ^ k = 0 := by
      by_cases hkj : k ≤ j
      · -- the alignment divides the chunk size: the address was already aligned
        have hdvdc : (2 : Nat) ^ k ∣ s.chunk_size := by
          rw [hc]; exact pow_dvd_pow 2 hkj
        have hxdvd : (2 : Nat) ^ k ∣ s.bottom + s.current_height * s.chunk_size :=
          Nat.dvd_add (Nat.dvd_of_mod_eq_zero hbase) (hdvdc.mul_left s.current_height)
        have hxmod : (s.bottom + s.current_height * s.chunk_size) % 2 ^ k = 0 :=
          Nat.mod_eq_zero_of_dvd hxdvd
        have hR : round_up_to_alignment (s.bottom + s.current_height * s.chunk_size) (2 ^ k)
            = s.bottom + s.current_height * s.chunk_size := by
          rw [round_up_branch, if_pos hxmod]
        have hbh : s.allocBottom (2 ^ k) = s.current_height := by
          rw [hbot, hR, Nat.add_sub_cancel_left, Nat.mul_div_cancel _ hcpos]
        have hpdvd : (2 : Nat) ^ k ∣ p := by
          rw [hpsum, hbh]
          exact Nat.dvd_add (Nat.dvd_of_mod_eq_zero hbase) (hdvdc.mul_left s.current_height)
        exact Nat.mod_eq_zero_of_dvd hpdvd
      · -- the chunk size divides the alignment: the pointer is the rounded address
        have hcdvd : s.chunk_size ∣ (2 : Nat) ^ k := by
          rw [hc]; exact pow_dvd_pow 2 (by omega)
        have hdvdR : (2 : Nat) ^ k ∣
            round_up_to_alignment (s.bottom + s.current_height * s.chunk_size) (2 ^ k) :=
          Nat.dvd_of_mod_eq_zero hRmod
        have hdvdb : (2 : Nat) ^ k ∣ s.bottom := Nat.dvd_of_mod_eq_zero hbase
        have hcdvdRb : s.chunk_size ∣
            (round_up_to_alignment (s.bottom + s.current_height * s.chunk_size) (2 ^ k)
              - s.bottom) :=
          Nat.dvd_sub' (hcdvd.trans hdvdR) (hcdvd.trans hdvdb)
        have hbmul : s.allocBottom (2 ^ k) * s.chunk_size =
            round_up_to_alignment (s.bottom + s.current_height * s.chunk_size) (2 ^ k)
              - s.bottom := by
          rw [hbot]
          exact Nat.div_mul_cancel hcdvdRb
        have hpR : p =
            round_up_to_alignment (s.bottom + s.current_height * s.chunk_size) (2 ^ k) := by
          omega
        rw [hpR]
        exact hRmod
    exact ⟨halign, by omega, by omega⟩

/-- C5 (amended): the part of the claim about the stacks themselves holds:
for every matched sequence of allocations and deallocations on a
`BitmappedStack` — each deallocation passing the pointer and size of a
live allocation — the final state with no live allocations has bitmap 0
and height 0 (the stack has completely drained, `debug_assert_empty`
holds).  The cached largest-free part of the original claim is refuted by
`c5_counterexample`: after a matched pair the caches stay below 64. -/
theorem c5_matched_sequences_drain_stack (s : BitmappedStack) (h : MReach s []) :
    s.bitmap = 0 ∧ s.current_height = 0 := by
  have inv := MReach_inv h
  constructor
  · apply Nat.eq_of_testBit_eq
    intro i
    rw [Nat.zero_testBit]
    by_contra hb
    rw [Bool.not_eq_false] at hb
    rcases (inv.bits i).mp hb with ⟨e, he, _⟩
    simp at he
  · rcases inv.top with h0 | ⟨e, he, _⟩
    · exact h0
    · simp at he

theorem c5_witness :
    (⟨8, 0, 8, 0⟩ : BitmappedStack).bitmap = 0 ∧
    (⟨8, 0, 8, 0⟩ : BitmappedStack).current_height = 0 := by
  have h0 : MReach ⟨8, 0, 8, 0⟩ [] := MReach.init 8 8 (by decide)
  have h1 : MReach ⟨8, 1, 8, 1⟩ [(8, 8)] :=
    MReach.alloc ⟨8, 0, 8, 0⟩ [] ⟨8, 1, 8, 1⟩ 8 8 1 0 h0 (by decide) rfl (by decide)
      (by decide)
  have h2 : MReach ⟨8, 0, 8, 0⟩ [] :=
    MReach_cast _ ⟨8, 0, 8, 0⟩ _ []
      (MReach.dealloc ⟨8, 1, 8, 1⟩ [(8, 8)] 8 8 h1 (by decide)) (by decide) (by decide)
  exact c5_matched_sequences_drain_stack ⟨8, 0, 8, 0⟩ h2

theorem c7_witness :
    (4096 : Nat) % 128 = 0 ∧ (4096 : Nat) ≤ 4096 ∧
    (4096 : Nat) + 13 ≤ 4096 + STACK_SIZE * 8 :=
  c7_alloc_aligned_in_stack ⟨4096, 0, 8, 0⟩ 13 128 3 7 ⟨4096, 2, 8, 3⟩ 4096 rfl rfl
    (by decide) (by decide) (by decide)

end StackAlloc
